import Mathlib

/-!
# Verification of the wall-build block-packing core

Shallow embedding, over exact rational arithmetic, of the packing pipeline of
this repository.  The repository carries two variants of the packer:

* `src/main.py` (namespace `Main` below): fit test by `math.isclose` with
  relative tolerance `1e-9`, tail backtrack at micro-rests, order and offset
  trials, no aperture filter, buffered keep-out, no threshold on the final
  shortened course;
* `src/core/wall_builder.py` (namespace `Core` below): fit test by area ratio
  `>= 0.95`, no backtrack (tails narrower than `MICRO_REST_MM` are dropped),
  a single greedy order and offset, aperture filter, unbuffered keep-out, an
  adaptive final course only when the vertical residual is at least 150.

Geometry is embedded as rectilinear regions: finite unions of axis-aligned
rectangles with rational coordinates.  The polygon primitives the source
delegates to its geometry library (intersection with a box, difference,
union, area, bounds, connected components) are realised on this
representation.  Where theorems need the list-sum of rectangle areas to be
the true area of the union, they hypothesise that the rectangles are
pairwise disjoint; a measure-theoretic lemma grounds the comparison of such
sums against a covering box.
-/

namespace WallBuild

/-- Python's `round` (banker's rounding: ties go to the even integer). -/
def pyRound (q : ℚ) : ℤ :=
  let f : ℤ := ⌊q⌋
  let r : ℚ := q - f
  if r < 1/2 then f
  else if 1/2 < r then f + 1
  else if f % 2 = 0 then f else f + 1

/-- `snap(v, grid)` from the source with the default grid `SNAP_MM = 1.0`:
`round(v / grid) * grid`. -/
def pySnap (q : ℚ) : ℚ := (pyRound q : ℚ)

/-- An axis-aligned rectangle; field order follows `shapely.geometry.box
(minx, miny, maxx, maxy)`. -/
structure Rect where
  x0 : ℚ
  y0 : ℚ
  x1 : ℚ
  y1 : ℚ
deriving DecidableEq, Repr

namespace Rect

def isEmpty (r : Rect) : Bool := r.x1 ≤ r.x0 || r.y1 ≤ r.y0

def area (r : Rect) : ℚ := max (r.x1 - r.x0) 0 * max (r.y1 - r.y0) 0

def inter (r s : Rect) : Rect :=
  ⟨max r.x0 s.x0, max r.y0 s.y0, min r.x1 s.x1, min r.y1 s.y1⟩

/-- Outward dilation by `d` on each side (used for the keep-out buffer;
models `buffer` with mitre corners — every claim that goes through it is
robust to the shape of the corner regions). -/
def grow (d : ℚ) (r : Rect) : Rect := ⟨r.x0 - d, r.y0 - d, r.x1 + d, r.y1 + d⟩

/-- `r.minus s`: the parts of `r` outside `s`, as at most four disjoint
rectangles. -/
def minus (r s : Rect) : List Rect :=
  let i := r.inter s
  if i.isEmpty then [r]
  else
    ([⟨r.x0, r.y0, i.x0, r.y1⟩,
      ⟨i.x1, r.y0, r.x1, r.y1⟩,
      ⟨i.x0, r.y0, i.x1, i.y0⟩,
      ⟨i.x0, i.y1, i.x1, r.y1⟩]).filter (fun t => !t.isEmpty)

/-- Closed rectangles share boundary or interior, and not just a single
corner point (adjacency used to recover connected components the way the
geometry library fuses touching polygons under `unary_union`). -/
def touches (r s : Rect) : Bool :=
  let xlo := max r.x0 s.x0
  let xhi := min r.x1 s.x1
  let ylo := max r.y0 s.y0
  let yhi := min r.y1 s.y1
  xlo ≤ xhi && ylo ≤ yhi && !(xlo == xhi && ylo == yhi)

end Rect

/-- A rectilinear region: a finite union of axis-aligned rectangles. -/
abbrev Region := List Rect

/-- `shapely` polygon bounds `(minx, miny, maxx, maxy)`. -/
structure Bnds where
  minx : ℚ
  miny : ℚ
  maxx : ℚ
  maxy : ℚ
deriving DecidableEq, Repr

/-- Area of a region, as the geometry library computes it on a union of
pairwise-disjoint rectangles: the sum of the rectangle areas. -/
def rgArea (g : Region) : ℚ := (g.map Rect.area).sum

/-- `geometry.is_empty`. -/
def rgIsEmpty (g : Region) : Bool := g.isEmpty

/-- `geometry.bounds`. -/
def rgBnds : Region → Bnds
  | [] => ⟨0, 0, 0, 0⟩
  | r :: rs =>
      rs.foldl
        (fun b s => ⟨min b.minx s.x0, min b.miny s.y0, max b.maxx s.x1, max b.maxy s.y1⟩)
        ⟨r.x0, r.y0, r.x1, r.y1⟩

/-- `geometry.intersection(box)`: clip every rectangle, dropping degenerate
pieces. -/
def interBox (g : Region) (b : Rect) : Region :=
  (g.map (fun r => r.inter b)).filter (fun r => !r.isEmpty)

/-- `geometry.difference(other)`: successively subtract the rectangles of
the subtrahend. -/
def diffRegion (g k : Region) : Region :=
  k.foldl (fun acc s => acc.flatMap (fun r => r.minus s)) g

/-- Square-join outward buffer of a region. -/
def bufferSq (g : Region) (d : ℚ) : Region := g.map (Rect.grow d)

/-- One step of component grouping: fuse the new rectangle with every group
it touches. -/
def addRect (groups : List Region) (r : Rect) : List Region :=
  let t := groups.partition (fun grp => grp.any (fun s => r.touches s))
  (r :: t.1.flatten) :: t.2

/-- Connected components of a region (the normalisation
`ensure_multipolygon` applies to an intersection result: a `MultiPolygon`
is flattened to its polygons, an empty geometry gives the empty list). -/
def components (g : Region) : List Region :=
  (g.foldl addRect []).reverse

/-- `math.isclose(a, b, rel_tol=1e-9)` (the default `abs_tol` is 0). -/
def isClose (a b : ℚ) : Bool := |a - b| ≤ (1/1000000000) * max |a| |b|

/-- A wall polygon: its covered area (holes already removed from the
region) together with its interior rings, which `polygon_holes` returns as
polygons. -/
structure WallPoly where
  region : Region
  holes : List Rect
deriving DecidableEq, Repr

/-- A raw input polygon as the sanitizer sees it: the geometry library's
validity predicate and its zero-width-buffer repair are oracle data carried
with the value (the source treats both as primitives of the geometry
facility). -/
structure RawPoly where
  geom : WallPoly
  isValid : Bool
  buffered : WallPoly
  bufferedValid : Bool
deriving DecidableEq, Repr

/-- `sanitize_polygon` (src/main.py:157): return the polygon if valid,
otherwise the `buffer(0)` repair if that is valid, otherwise raise. -/
def sanitize_polygon (p : RawPoly) : Except String WallPoly :=
  if p.isValid then .ok p.geom
  else if p.bufferedValid then .ok p.buffered
  else .error "Polygon invalido"

/-- A standard block placement `{type, width, height, x, y}`.  The height is
rational because the adaptive course records `snap(effective_height)`. -/
structure Std where
  type : String
  width : ℤ
  height : ℚ
  x : ℚ
  y : ℚ
deriving DecidableEq, Repr

/-- Classification tag of a custom piece: Python's `1`, `2` or the string
`"out_of_spec"`. -/
inductive CType where
  | t1 : CType
  | t2 : CType
  | oos : CType
deriving DecidableEq, Repr

/-- A custom piece.  `sourceBlockWidth`/`waste` exist only in the
core-module variant of `_mk_custom`; `ctype` is set by
`validate_and_tag_customs`. -/
structure Custom where
  width : ℚ
  height : ℚ
  x : ℚ
  y : ℚ
  geom : Region
  sourceBlockWidth : Option ℚ
  waste : Option ℚ
  ctype : Option CType
deriving DecidableEq, Repr

/-- `_mk_std` (identical in both variants). -/
def mkStd (x y : ℚ) (w : ℤ) (h : ℚ) : Std :=
  { type := "std_" ++ toString w ++ "x" ++ toString h
    width := w, height := h, x := pySnap x, y := pySnap y }

/-- `_score_solution`: the lexicographic score `(#custom, total custom
area)`. -/
def scoreSolution (_placed : List Std) (custom : List Custom) : ℕ × ℚ :=
  (custom.length, (custom.map (fun c => rgArea c.geom)).sum)

/-- Strict comparison of Python tuples `(int, float) < (int, float)`. -/
def scoreLt (s t : ℕ × ℚ) : Bool := s.1 < t.1 || (s.1 == t.1 && s.2 < t.2)

/-- Comparison against the running best, whose initial value is
`(10**9, float("inf"))`: the second component `none` stands for infinity. -/
def scoreLtBest (s : ℕ × ℚ) (b : ℕ × Option ℚ) : Bool :=
  s.1 < b.1 || (s.1 == b.1 &&
    match b.2 with
    | none => true
    | some a => s.2 < a)

/-- Generic best-candidate selection with the sentinel initialisation used
by `_pack_segment` and by the per-component offset trial in `pack_wall`:
keep the strictly better score, so the first candidate wins ties. -/
def bestOver {α : Type} (xs : List α) (f : α → List Std × List Custom) :
    List Std × List Custom :=
  (xs.foldl
    (fun acc o =>
      let r := f o
      let s := scoreSolution r.1 r.2
      if scoreLtBest s acc.2 then (r, (s.1, some s.2)) else acc)
    ((([] : List Std), ([] : List Custom)), ((10 ^ 9 : ℕ), (none : Option ℚ)))).1

/-- Fuel bound for a cursor sweep across a horizontal span: twice the
ceiling of the span plus slack (each loop iteration advances the snapped
cursor by at least half a unit once every block width is ≥ 1). -/
def sweepFuel (lo hi : ℚ) : ℕ := 2 * (hi - lo).ceil.toNat + 2

/-! ## Configuration constants (src/main.py:76-94; `utils.config` re-exports
the same values to the core module, as does the spec's configuration
table). -/

def SCARTO_CUSTOM_MM : ℤ := 5
def AREA_EPS : ℚ := 1/1000
def COORD_EPS : ℚ := 1/1000000
def MICRO_REST_MM : ℚ := 15
def KEEP_OUT_MM : ℚ := 2
def SPLIT_MAX_WIDTH_MM : ℤ := 413
def BLOCK_HEIGHT : ℤ := 495
def BLOCK_WIDTHS : List ℤ := [1239, 826, 413]
def SIZE_TO_LETTER : List (ℤ × String) := [(1239, "A"), (826, "B"), (413, "C")]
def BLOCK_ORDERS : List (List ℤ) := [[1239, 826, 413], [826, 1239, 413]]

/-- The candidate rectangle `box(cursor, y, cursor + w, stripe_top)`. -/
def candBox (cursor y : ℚ) (w : ℤ) (top : ℚ) : Rect :=
  ⟨cursor, y, cursor + (w : ℚ), top⟩

/-- The `for bw in widths_order` scan selects the first width that fits
horizontally (`cursor + bw <= seg_maxx + COORD_EPS`) and whose candidate
intersection with the component is non-empty with area `>= AREA_EPS`
(an empty intersection has area 0 < AREA_EPS, so the area test subsumes
`is_empty`). -/
def fitsAt (comp : Region) (cursor y top segMaxx : ℚ) (bw : ℤ) : Bool :=
  (cursor + (bw : ℚ) ≤ segMaxx + COORD_EPS) &&
    (AREA_EPS ≤ rgArea (interBox comp (candBox cursor y bw top)))

namespace Main

/-- `_mk_custom` (src/main.py:1272); `sanitize_polygon(geom)` is the
identity on the region representation, whose values are valid unions of
rectangles. -/
def mk_custom (g : Region) : Custom :=
  let b := rgBnds g
  { width := pySnap (b.maxx - b.minx), height := pySnap (b.maxy - b.miny)
    x := pySnap b.minx, y := pySnap b.miny, geom := g
    sourceBlockWidth := none, waste := none, ctype := none }

/-- The loop of `_try_fill` (src/main.py:1292): greedy fill from `start_x`
in the given order; note this helper does not snap the segment's right
bound. -/
def tryFillLoop (comp : Region) (y top segMaxx : ℚ) (widths : List ℤ) :
    ℕ → ℚ → List Std → List Custom → List Std × List Custom
  | 0, _, p, c => (p, c)
  | n + 1, cursor, p, c =>
      if cursor < segMaxx - COORD_EPS then
        match widths.find? (fitsAt comp cursor y top segMaxx) with
        | some bw =>
            let cand := candBox cursor y bw top
            let i := interBox comp cand
            if isClose (rgArea i) cand.area then
              tryFillLoop comp y top segMaxx widths n (pySnap (cursor + bw))
                (p ++ [mkStd cursor y bw (BLOCK_HEIGHT : ℚ)]) c
            else
              tryFillLoop comp y top segMaxx widths n (pySnap (cursor + bw))
                p (c ++ [mk_custom i])
        | none =>
            let remaining := interBox comp ⟨cursor, y, segMaxx, top⟩
            if !rgIsEmpty remaining && AREA_EPS < rgArea remaining then
              (p, c ++ [mk_custom remaining])
            else (p, c)
      else (p, c)

/-- `_try_fill` (src/main.py:1292). -/
def try_fill (comp : Region) (y top : ℚ) (widths : List ℤ) (startX : ℚ) :
    List Std × List Custom :=
  let segMaxx := (rgBnds comp).maxx
  let cursor := pySnap startX
  tryFillLoop comp (pySnap y) (pySnap top) segMaxx widths
    (sweepFuel cursor segMaxx) cursor [] []

/-- The main loop of `_pack_segment_with_order` (src/main.py:1348).  The
history list receives the state `(cursor, |placed|, |custom|)` at the top of
every iteration, most recent first; the backtrack consults only the most
recent entry. -/
def segLoop (comp : Region) (y top segMaxx : ℚ) (widthsOrder : List ℤ) :
    ℕ → ℚ → List Std → List Custom → List (ℚ × ℕ × ℕ) →
      List Std × List Custom
  | 0, _, p, c, _ => (p, c)
  | n + 1, cursor, p, c, hist =>
      if cursor < segMaxx - COORD_EPS then
        let hist' := (cursor, p.length, c.length) :: hist
        match widthsOrder.find? (fitsAt comp cursor y top segMaxx) with
        | some bw =>
            let cand := candBox cursor y bw top
            let i := interBox comp cand
            if isClose (rgArea i) cand.area then
              segLoop comp y top segMaxx widthsOrder n (pySnap (cursor + bw))
                (p ++ [mkStd cursor y bw (BLOCK_HEIGHT : ℚ)]) c hist'
            else
              segLoop comp y top segMaxx widthsOrder n (pySnap (cursor + bw))
                p (c ++ [mk_custom i]) hist'
        | none =>
            let remaining := interBox comp ⟨cursor, y, segMaxx, top⟩
            let remWidth := segMaxx - cursor
            if remWidth < MICRO_REST_MM ∧ hist' ≠ [] then
              match hist'.head? with
              | some (cursorPrev, pLen, cLen) =>
                  let p' := p.take pLen
                  let c' := c.take cLen
                  let alt := try_fill comp y top [413, 826, 1239] cursorPrev
                  let baselineArea : ℚ :=
                    if !rgIsEmpty remaining && AREA_EPS < rgArea remaining then
                      rgArea remaining
                    else 0
                  let scoreBack := scoreSolution (p' ++ alt.1) (c' ++ alt.2)
                  let scoreBase : ℕ × ℚ :=
                    (c'.length + (if 0 < baselineArea then 1 else 0), baselineArea)
                  if scoreLt scoreBack scoreBase then
                    match alt.1.getLast? with
                    | some lastB =>
                        segLoop comp y top segMaxx widthsOrder n
                          (pySnap (lastB.x + (lastB.width : ℚ))) (p' ++ alt.1)
                          (c' ++ alt.2) hist'
                    | none =>
                        if alt.2 ≠ [] then (p' ++ alt.1, c' ++ alt.2)
                        else
                          segLoop comp y top segMaxx widthsOrder n cursorPrev
                            (p' ++ alt.1) (c' ++ alt.2) hist'
                  else
                    (p', c' ++ (if AREA_EPS < baselineArea then [mk_custom remaining] else []))
              | none => (p, c)
            else
              (p, c ++
                (if !rgIsEmpty remaining && AREA_EPS < rgArea remaining then
                  [mk_custom remaining] else []))
      else (p, c)

/-- `_pack_segment_with_order` (src/main.py:1324): snap segment bounds,
handle the starting offset, then run the greedy loop. -/
def _pack_segment_with_order (comp : Region) (y top : ℚ)
    (widthsOrder : List ℤ) (offset : ℤ) : List Std × List Custom :=
  let b := rgBnds comp
  let segMinx := pySnap b.minx
  let segMaxx := pySnap b.maxx
  let y' := pySnap y
  let top' := pySnap top
  let start :
      ℚ × List Std × List Custom :=
    if offset ≠ 0 ∧ segMinx + (offset : ℚ) ≤ segMaxx + COORD_EPS then
      let cand := candBox segMinx y' offset top'
      let i := interBox comp cand
      if !rgIsEmpty i && AREA_EPS ≤ rgArea i then
        if isClose (rgArea i) cand.area then
          (pySnap (segMinx + offset), [mkStd segMinx y' offset (BLOCK_HEIGHT : ℚ)], [])
        else
          (pySnap (segMinx + offset), [], [mk_custom i])
      else (segMinx, [], [])
    else (segMinx, [], [])
  segLoop comp y' top' segMaxx widthsOrder (sweepFuel start.1 segMaxx)
    start.1 start.2.1 start.2.2 []

/-- `_pack_segment` (src/main.py:1403): try every configured order and keep
the best score; the `widths` argument is unused, as in the source. -/
def _pack_segment (comp : Region) (y top : ℚ) (_widths : List ℤ) (offset : ℤ) :
    List Std × List Custom :=
  bestOver BLOCK_ORDERS (fun ord => _pack_segment_with_order comp y top ord offset)

end Main

/-! ## Custom post-processing, shared by both variants up to the
`_mk_custom` they call. -/

/-- Keys of a `defaultdict` in insertion order: first occurrences. -/
def firstOccurrences (l : List ℤ) : List ℤ :=
  l.foldl (fun acc x => if x ∈ acc then acc else acc ++ [x]) []

/-- `row_id = int(round(snap(c["y"]) / row_height))`. -/
def rowIdOf (rowHeight : ℤ) (c : Custom) : ℤ := pyRound (pySnap c.y / (rowHeight : ℚ))

/-- `merge_customs_row_aware` (src/main.py:1815, src/core/wall_builder.py:506):
group by row id, union each group's geometries (`buffer(0)` is the identity
on region values), split the union back into connected polygons, and rebuild
each as a custom piece; `mkC` is the variant's `_mk_custom` applied without
an available-widths list. -/
def merge_customs_row_aware (mkC : Region → Custom) (customs : List Custom)
    (rowHeight : ℤ) : List Custom :=
  if customs.isEmpty then []
  else
    (firstOccurrences (customs.map (rowIdOf rowHeight))).flatMap (fun rid =>
      let polys : List Region :=
        ((customs.filter (fun c => rowIdOf rowHeight c == rid)).map (fun c => c.geom))
      let merged : Region := polys.flatten
      (components merged).filterMap (fun g =>
        if AREA_EPS < rgArea g then some (mkC g) else none))

/-- The slicing loop of `split_out_of_spec`. -/
def splitLoop (mkC : Region → Custom) (poly : Region) (miny maxy maxxQ : ℚ)
    (maxW : ℤ) : ℕ → ℚ → List Custom → List Custom
  | 0, _, acc => acc
  | n + 1, x0, acc =>
      if x0 < maxxQ - COORD_EPS then
        let x1 := min (x0 + (maxW : ℚ)) maxxQ
        let piece := interBox poly ⟨x0, miny, x1, maxy⟩
        let acc' :=
          if !rgIsEmpty piece && AREA_EPS < rgArea piece then acc ++ [mkC piece]
          else acc
        splitLoop mkC poly miny maxy maxxQ maxW n x1 acc'
      else acc

/-- `split_out_of_spec` (src/main.py:1839, src/core/wall_builder.py:531):
pieces within `max_w + tol` wide and `max_h + tol` tall pass through;
anything else is sliced into vertical strips of width `max_w` (the last one
narrower), each non-empty strip rebuilt as a custom piece, and an
out-of-spec piece with degenerate geometry is dropped. -/
def split_out_of_spec (mkC : Region → Custom) (customs : List Custom)
    (maxW maxH : ℤ) : List Custom :=
  customs.flatMap (fun c =>
    let w := pyRound c.width
    let h := pyRound c.height
    if w ≤ maxW + SCARTO_CUSTOM_MM ∧ h ≤ maxH + SCARTO_CUSTOM_MM then [c]
    else
      let poly := c.geom
      if rgIsEmpty poly || rgArea poly ≤ AREA_EPS then []
      else
        let b := rgBnds poly
        splitLoop mkC poly b.miny b.maxy b.maxx maxW
          (sweepFuel b.minx b.maxx) b.minx [])

/-- Largest element of an integer list (`max(...)`; 0 stands in for the
error Python raises on an empty list, which the callers never pass). -/
def maxListZ : List ℤ → ℤ
  | [] => 0
  | x :: xs => xs.foldl max x

/-- Smallest element of an integer list (`min(...)`). -/
def minListZ : List ℤ → ℤ
  | [] => 0
  | x :: xs => xs.foldl min x

namespace Main

/-- `validate_and_tag_customs` (src/main.py:1864).  Note the hard-coded
width bound 413. -/
def validate_and_tag_customs (customs : List Custom) : List Custom :=
  customs.map (fun c =>
    let w := pyRound c.width
    let h := pyRound c.height
    if 413 + SCARTO_CUSTOM_MM ≤ w ∨ 495 + SCARTO_CUSTOM_MM < h then
      { c with ctype := some .oos }
    else if |h - 495| ≤ SCARTO_CUSTOM_MM ∧ w < 413 + SCARTO_CUSTOM_MM then
      { c with ctype := some .t1 }
    else { c with ctype := some .t2 })

/-- The offset candidates of `pack_wall` (src/main.py:1454-1459): `[0]` on
even rows; the configured `row_offset` (when given) followed by the literal
`413` on odd rows. -/
def offsetCandidates (row : ℕ) (rowOffset : Option ℤ) : List ℤ :=
  if row % 2 == 0 then [0]
  else
    (match rowOffset with
      | some ro => [ro]
      | none => []) ++ [413]

/-- Per-component processing inside `pack_wall`'s course loop
(src/main.py:1450-1473): best-score selection over the offset candidates;
note the call passes the global `BLOCK_WIDTHS`, not the function's
`block_widths` argument. -/
def packComponent (row : ℕ) (rowOffset : Option ℤ) (comp : Region)
    (y top : ℚ) : List Std × List Custom :=
  bestOver (offsetCandidates row rowOffset)
    (fun off => _pack_segment comp y top BLOCK_WIDTHS off)

/-- The stripe loop of `pack_wall` (src/main.py:1441): every band up to
`maxy` is processed, the last one shortened by `min(y + block_height,
maxy)`. -/
def courseLoop (poly : Region) (keepout : Option Region) (rowOffset : Option ℤ)
    (minx maxx maxy : ℚ) (blockHeight : ℤ) :
    ℕ → ℚ → ℕ → List Std × List Custom → List Std × List Custom
  | 0, _, _, acc => acc
  | n + 1, y, row, acc =>
      if y < maxy - COORD_EPS then
        let top := min (y + (blockHeight : ℚ)) maxy
        let stripe : Rect := ⟨minx, y, maxx, top⟩
        let inter0 := interBox poly stripe
        let inter :=
          match keepout with
          | some k => diffRegion inter0 k
          | none => inter0
        let comps := components inter
        let acc' := comps.foldl
          (fun a comp =>
            if rgIsEmpty comp || rgArea comp < AREA_EPS then a
            else
              let r := packComponent row rowOffset comp y top
              (a.1 ++ r.1, a.2 ++ r.2))
          acc
        courseLoop poly keepout rowOffset minx maxx maxy blockHeight n
          (pySnap (y + blockHeight)) (row + 1) acc'
      else acc

/-- `pack_wall` (src/main.py:1416): no aperture filter — every supplied
aperture joins the keep-out, which is buffered by `KEEP_OUT_MM`. -/
def pack_wall (polyR : WallPoly) (_blockWidths : List ℤ) (blockHeight : ℤ)
    (rowOffset : Option ℤ) (apertures : List Rect) : List Std × List Custom :=
  let holePolys := polyR.holes
  let apList := apertures
  let keepout : Option Region :=
    if holePolys ≠ [] ∨ apList ≠ [] then
      let u : Region := holePolys ++ apList
      if !rgIsEmpty u then some (bufferSq u KEEP_OUT_MM) else none
    else none
  let b := rgBnds polyR.region
  let res := courseLoop polyR.region keepout rowOffset b.minx b.maxx b.maxy
    blockHeight (sweepFuel b.miny b.maxy) b.miny 0 ([], [])
  let merged := merge_customs_row_aware mk_custom res.2 BLOCK_HEIGHT
  let split := split_out_of_spec mk_custom merged SPLIT_MAX_WIDTH_MM 495
  (res.1, validate_and_tag_customs split)

/-- `pack_wall` on a raw polygon: the body starts with
`polygon = sanitize_polygon(polygon)`, whose failure aborts the call with
no output. -/
def pack_wallE (p : RawPoly) (blockWidths : List ℤ) (blockHeight : ℤ)
    (rowOffset : Option ℤ) (apertures : List Rect) :
    Except String (List Std × List Custom) :=
  (sanitize_polygon p).map (fun g =>
    pack_wall g blockWidths blockHeight rowOffset apertures)

/-- The width-to-letter mapping with the nearest-width fallback
(src/main.py:1889-1892): `sorted(candidates)[0]` takes the
lexicographically least `(|w - k|, letter)` pair. -/
def letterFor (w : ℤ) : String :=
  match SIZE_TO_LETTER.lookup w with
  | some l => l
  | none =>
      let cands := SIZE_TO_LETTER.map (fun kv => ((w - kv.1).natAbs, kv.2))
      (cands.foldl
        (fun best c =>
          if c.1 < best.1 || (c.1 == best.1 && decide (c.2 < best.2)) then c
          else best)
        (cands.headD (0, "X"))).2

/-- The common shape of the two labelling loops of `create_block_labels`:
per-key counters bumped in emission order (the counter dictionary is an
association list whose most recent binding shadows the older ones). -/
def labelFold {α : Type} (key : α → String) (mkLabel : String → ℕ → String)
    (l : List α) : List String :=
  (l.foldl
    (fun (acc : List String × List (String × ℕ)) a =>
      let k := key a
      let n := ((acc.2.lookup k).getD 0) + 1
      (acc.1 ++ [mkLabel k n], (k, n) :: acc.2))
    ([], [])).1

/-- Standard-block labels in emission order: `<letter><count>` with one
counter per letter (the Python dict keyed by the index `i` is the list
position). -/
def stdLabels (placed : List Std) : List String :=
  labelFold (fun blk => letterFor blk.width) (fun k n => k ++ toString n) placed

/-- `code = ctype if ctype in (1, 2) else "X"`; a missing `ctype` defaults
to 2. -/
def ctypeCode : Option CType → String
  | some .t1 => "1"
  | some .t2 => "2"
  | some .oos => "X"
  | none => "2"

/-- Custom-piece labels `CU<code>(<ordinal>)` in emission order. -/
def customLabels (customs : List Custom) : List String :=
  labelFold (fun c => ctypeCode c.ctype)
    (fun k n => "CU" ++ k ++ "(" ++ toString n ++ ")") customs

/-- `create_block_labels` (src/main.py:1884). -/
def create_block_labels (placed : List Std) (customs : List Custom) :
    List String × List String :=
  (stdLabels placed, customLabels customs)

end Main

namespace Core

/-- `choose_optimal_source_block_for_custom`
(src/core/wall_builder.py:104): among the widths at least as large as the
required width take the one of least waste, otherwise the largest width;
on an empty list the function degenerates to the required width. -/
def choose_optimal_source_block_for_custom (requiredWidth : ℚ)
    (availableWidths : List ℤ) : ℚ :=
  if availableWidths.isEmpty then requiredWidth
  else
    let suitable : List ℤ := availableWidths.filter (fun w => requiredWidth ≤ (w : ℚ))
    match suitable with
    | [] => (maxListZ availableWidths : ℚ)
    | w :: ws => (((ws.foldl min w : ℤ)) : ℚ)

/-- `_mk_custom` (src/core/wall_builder.py:81): as the main variant, plus
the advisory source-block width and waste; the optimiser runs only when an
available-widths list was passed. -/
def mk_custom (g : Region) (availableWidths : List ℤ) : Custom :=
  let b := rgBnds g
  let requiredWidth := pySnap (b.maxx - b.minx)
  let src :=
    if availableWidths.isEmpty then requiredWidth
    else choose_optimal_source_block_for_custom requiredWidth availableWidths
  { width := requiredWidth, height := pySnap (b.maxy - b.miny)
    x := pySnap b.minx, y := pySnap b.miny, geom := g
    sourceBlockWidth := some src, waste := some (src - requiredWidth)
    ctype := none }

/-- The greedy loop of the core `_pack_segment_with_order`
(src/core/wall_builder.py:212-245): first width that fits and intersects
with area `>= AREA_EPS`; standard block when the intersection fills at
least 95% of the candidate, custom piece otherwise; at the tail the
residual is emitted only when the remaining width exceeds `MICRO_REST_MM`
— narrower residuals are dropped. -/
def segLoop (comp : Region) (y top segMaxx : ℚ) (widthsOrder : List ℤ) :
    ℕ → ℚ → List Std → List Custom → List Std × List Custom
  | 0, _, p, c => (p, c)
  | n + 1, cursor, p, c =>
      if cursor < segMaxx - COORD_EPS then
        let spazio := segMaxx - cursor
        match widthsOrder.find? (fitsAt comp cursor y top segMaxx) with
        | some bw =>
            let cand := candBox cursor y bw top
            let i := interBox comp cand
            if (95 : ℚ)/100 ≤ rgArea i / cand.area then
              segLoop comp y top segMaxx widthsOrder n (pySnap (cursor + bw))
                (p ++ [mkStd cursor y bw (BLOCK_HEIGHT : ℚ)]) c
            else
              segLoop comp y top segMaxx widthsOrder n (pySnap (cursor + bw))
                p (c ++ [mk_custom i widthsOrder])
        | none =>
            if MICRO_REST_MM < spazio then
              let remaining := interBox comp ⟨cursor, y, segMaxx, top⟩
              (p, c ++
                (if !rgIsEmpty remaining && AREA_EPS ≤ rgArea remaining then
                  [mk_custom remaining widthsOrder] else []))
            else (p, c)
      else (p, c)

/-- `_pack_segment_with_order` (src/core/wall_builder.py:181). -/
def _pack_segment_with_order (comp : Region) (y top : ℚ)
    (widthsOrder : List ℤ) (offset : ℤ) : List Std × List Custom :=
  let b := rgBnds comp
  let segMinx := pySnap b.minx
  let segMaxx := pySnap b.maxx
  let y' := pySnap y
  let top' := pySnap top
  let start :
      ℚ × List Std × List Custom :=
    if offset ≠ 0 ∧ segMinx + (offset : ℚ) ≤ segMaxx + COORD_EPS then
      let cand := candBox segMinx y' offset top'
      let i := interBox comp cand
      if !rgIsEmpty i && AREA_EPS ≤ rgArea i then
        if (95 : ℚ)/100 ≤ rgArea i / cand.area then
          (pySnap (segMinx + offset), [mkStd segMinx y' offset (BLOCK_HEIGHT : ℚ)], [])
        else
          (pySnap (segMinx + offset), [], [mk_custom i widthsOrder])
      else (segMinx, [], [])
    else (segMinx, [], [])
  segLoop comp y' top' segMaxx widthsOrder (sweepFuel start.1 segMaxx)
    start.1 start.2.1 start.2.2

/-- Stable descending sort (`sorted(widths, reverse=True)`). -/
def insertDesc (x : ℤ) : List ℤ → List ℤ
  | [] => [x]
  | y :: ys => if y ≤ x then x :: y :: ys else y :: insertDesc x ys

def sortDesc (l : List ℤ) : List ℤ := l.foldr insertDesc []

/-- `_pack_segment` (src/core/wall_builder.py:250): a single greedy
largest-first order, no trials. -/
def _pack_segment (comp : Region) (y top : ℚ) (widths : List ℤ)
    (offset : ℤ) : List Std × List Custom :=
  _pack_segment_with_order comp y top (sortDesc widths) offset

/-- `comp.contains(candidate)`, decided by area on the disjoint-rectangle
representation. -/
def containsRect (g : Region) (r : Rect) : Bool :=
  !r.isEmpty && rgArea (interBox g r) == r.area

/-- The placement loop of `_pack_segment_with_order_adaptive`
(src/core/wall_builder.py:274-318). -/
def adaptiveLoop (comp : Region) (y effH maxx : ℚ) (widthsOrder : List ℤ) :
    ℕ → ℚ → List Std → List Std
  | 0, _, p => p
  | n + 1, x, p =>
      if x < maxx then
        let remainingW := maxx - x
        let optimal : Option ℤ := widthsOrder.find? (fun w => (w : ℚ) - 5 ≤ remainingW)
        let best1 : Option ℤ :=
          match optimal with
          | some ow =>
              if x + (ow : ℚ) ≤ maxx ∧ containsRect comp ⟨x, y, x + (ow : ℚ), y + effH⟩ then
                some ow
              else none
          | none => none
        let best : Option ℤ :=
          match best1 with
          | some w => some w
          | none =>
              widthsOrder.find? (fun w =>
                decide (x + (w : ℚ) ≤ maxx) &&
                  containsRect comp ⟨x, y, x + (w : ℚ), y + effH⟩)
        match best with
        | some w =>
            adaptiveLoop comp y effH maxx widthsOrder n (x + (w : ℚ))
              (p ++ [{ type := "adaptive_block_" ++ toString w, width := w
                       height := pySnap effH, x := pySnap x, y := pySnap y }])
        | none =>
            adaptiveLoop comp y effH maxx widthsOrder n
              (x + (minListZ widthsOrder : ℚ)) p
      else p

/-- `remaining = comp` minus every placed block's box, as stored (snapped
coordinates, snapped adaptive height). -/
def adaptiveRemaining (comp : Region) (p : List Std) : Region :=
  p.foldl
    (fun acc b => diffRegion acc [⟨b.x, b.y, b.x + (b.width : ℚ), b.y + b.height⟩])
    comp

/-- `_pack_segment_with_order_adaptive` (src/core/wall_builder.py:259):
containment-based greedy at the adaptive height, then custom pieces from
whatever of the component the placed blocks do not cover. -/
def _pack_segment_with_order_adaptive (comp : Region) (y top : ℚ)
    (widthsOrder : List ℤ) (adaptiveHeight : ℚ) (offset : ℤ) :
    List Std × List Custom :=
  let b := rgBnds comp
  let actualHeight := top - y
  let effH := min adaptiveHeight actualHeight
  let startX := b.minx + (offset : ℚ)
  let p := adaptiveLoop comp y effH b.maxx widthsOrder
    (sweepFuel startX b.maxx) startX []
  let remaining := adaptiveRemaining comp p
  let customs : List Custom :=
    if AREA_EPS < rgArea remaining then
      match components remaining with
      | [g] => [mk_custom g []]
      | gs => gs.filterMap (fun g =>
          if AREA_EPS < rgArea g then some (mk_custom g []) else none)
    else []
  (p, customs)

/-- `validate_and_tag_customs` (src/core/wall_builder.py:557): like the
main variant but with the bound `max(BLOCK_WIDTHS)` and a non-strict
type-1 width comparison. -/
def validate_and_tag_customs (customs : List Custom) : List Custom :=
  let maxStandardWidth := maxListZ BLOCK_WIDTHS
  customs.map (fun c =>
    let w := pyRound c.width
    let h := pyRound c.height
    if maxStandardWidth + SCARTO_CUSTOM_MM ≤ w ∨ 495 + SCARTO_CUSTOM_MM < h then
      { c with ctype := some .oos }
    else if |h - 495| ≤ SCARTO_CUSTOM_MM ∧ w ≤ maxStandardWidth + SCARTO_CUSTOM_MM then
      { c with ctype := some .t1 }
    else { c with ctype := some .t2 })

/-- The aperture filter of the core `pack_wall`
(src/core/wall_builder.py:366-385): keep an aperture iff its area ratio to
the wall is at most 0.8 and its area is at least 1000. -/
def validApertures (wallArea : ℚ) (apList : List Rect) : List Rect :=
  apList.filter (fun ap => !((8 : ℚ)/10 < ap.area / wallArea) && !(ap.area < 1000))

/-- Phase 1 of the core `pack_wall` (src/core/wall_builder.py:416-458):
the counted loop over complete rows; returns the final `y` together with
the accumulated placements. -/
def phase1 (poly : Region) (keepout : Option Region) (rowOffset : Option ℤ)
    (blockWidths : List ℤ) (blockHeight : ℤ) (minx maxx : ℚ) :
    ℕ → ℚ → ℕ → List Std × List Custom → ℚ × (List Std × List Custom)
  | 0, y, _, acc => (y, acc)
  | k + 1, y, row, acc =>
      let top := y + (blockHeight : ℚ)
      let stripe : Rect := ⟨minx, y, maxx, top⟩
      let inter0 := interBox poly stripe
      let inter :=
        match keepout with
        | some ko => diffRegion inter0 ko
        | none => inter0
      let comps := components inter
      let acc' := comps.foldl
        (fun a comp =>
          if rgIsEmpty comp || rgArea comp < AREA_EPS then a
          else
            let offset : ℤ :=
              if row % 2 == 0 then 0
              else rowOffset.getD (minListZ blockWidths)
            let r := _pack_segment_with_order comp y top (sortDesc blockWidths) offset
            (a.1 ++ r.1, a.2 ++ r.2))
        acc
      phase1 poly keepout rowOffset blockWidths blockHeight minx maxx k
        (pySnap (y + blockHeight)) (row + 1) acc'

/-- `pack_wall` (src/core/wall_builder.py:341): aperture filter, unbuffered
keep-out, `int(total_height / block_height)` complete rows, an adaptive
final course only when the vertical residual is at least 150. -/
def pack_wall (polyR : WallPoly) (blockWidths : List ℤ) (blockHeight : ℤ)
    (rowOffset : Option ℤ) (apertures : List Rect) : List Std × List Custom :=
  let holePolys := polyR.holes
  let apList := apertures
  let wallArea := rgArea polyR.region
  let validAps := validApertures wallArea apList
  let keepout : Option Region :=
    if holePolys ≠ [] ∨ validAps ≠ [] then
      let u : Region := holePolys ++ validAps
      if !rgIsEmpty u then some u else none
    else none
  let b := rgBnds polyR.region
  let totalHeight := b.maxy - b.miny
  let completeRows : ℕ := (totalHeight / (blockHeight : ℚ)).floor.toNat
  let remainingSpace := totalHeight - (completeRows : ℚ) * (blockHeight : ℚ)
  let r1 := phase1 polyR.region keepout rowOffset blockWidths blockHeight
    b.minx b.maxx completeRows b.miny 0 ([], [])
  let res :=
    if (150 : ℚ) ≤ remainingSpace then
      let adaptiveHeight := min remainingSpace (blockHeight : ℚ)
      let y := r1.1
      let top := y + adaptiveHeight
      let stripe : Rect := ⟨b.minx, y, b.maxx, top⟩
      let inter0 := interBox polyR.region stripe
      let inter :=
        match keepout with
        | some ko => diffRegion inter0 ko
        | none => inter0
      let comps := components inter
      comps.foldl
        (fun a comp =>
          if rgIsEmpty comp || rgArea comp < AREA_EPS then a
          else
            let offset : ℤ :=
              if completeRows % 2 == 0 then 0
              else rowOffset.getD (minListZ blockWidths)
            let r := _pack_segment_with_order_adaptive comp y top
              (sortDesc blockWidths) adaptiveHeight offset
            (a.1 ++ r.1, a.2 ++ r.2))
        r1.2
    else r1.2
  let merged := merge_customs_row_aware (fun g => mk_custom g []) res.2 BLOCK_HEIGHT
  let split := split_out_of_spec (fun g => mk_custom g []) merged SPLIT_MAX_WIDTH_MM 495
  (res.1, validate_and_tag_customs split)

end Core

/-! ## Claim C8 — sanitize and failure atomicity -/

/-- A small valid wall used to instantiate witnesses. -/
def sampleWallA : WallPoly := ⟨[⟨0, 0, 413, 495⟩], []⟩

/-- C8: `sanitize(p)` returns `p` unchanged when `p` is valid, returns the
zero-width-buffer repair when `p` is invalid and the repair is valid, and
raises an InvalidGeometry error when the repair is also invalid; and
whenever `pack_wall` raises an error it returns no placements at all — the
only failure point is the input sanitizer, and an erroring call produces no
output. -/
theorem C8_sanitize_and_failure_atomicity :
    (∀ p : RawPoly, p.isValid = true → sanitize_polygon p = .ok p.geom) ∧
    (∀ p : RawPoly, p.isValid = false → p.bufferedValid = true →
      sanitize_polygon p = .ok p.buffered) ∧
    (∀ p : RawPoly, p.isValid = false → p.bufferedValid = false →
      ∃ msg, sanitize_polygon p = .error msg) ∧
    (∀ p bw bh ro aps msg, Main.pack_wallE p bw bh ro aps = .error msg →
      p.isValid = false ∧ p.bufferedValid = false ∧
      ∀ out, Main.pack_wallE p bw bh ro aps ≠ .ok out) := by
  refine ⟨?_, ?_, ?_, ?_⟩
  · intro p h
    simp [sanitize_polygon, h]
  · intro p h1 h2
    simp [sanitize_polygon, h1, h2]
  · intro p h1 h2
    exact ⟨"Polygon invalido", by simp [sanitize_polygon, h1, h2]⟩
  · intro p bw bh ro aps msg h
    by_cases h1 : p.isValid
    · simp [Main.pack_wallE, sanitize_polygon, h1, Except.map] at h
    · by_cases h2 : p.bufferedValid
      · simp [Main.pack_wallE, sanitize_polygon, h1, h2, Except.map] at h
      · refine ⟨by simp [h1], by simp [h2], ?_⟩
        intro out hout
        simp [Main.pack_wallE, sanitize_polygon, h1, h2, Except.map] at hout

/-- Witness for C8 at concrete polygons. -/
theorem C8_witness :
    (sanitize_polygon ⟨sampleWallA, true, sampleWallA, true⟩ = .ok sampleWallA) ∧
    (sanitize_polygon ⟨sampleWallA, false, sampleWallA, true⟩ = .ok sampleWallA) ∧
    (∃ msg, sanitize_polygon ⟨sampleWallA, false, sampleWallA, false⟩ = .error msg) ∧
    (∀ out, Main.pack_wallE ⟨sampleWallA, false, sampleWallA, false⟩
      BLOCK_WIDTHS 495 (some 826) [] ≠ .ok out) :=
  ⟨C8_sanitize_and_failure_atomicity.1 _ rfl,
   C8_sanitize_and_failure_atomicity.2.1 _ rfl rfl,
   C8_sanitize_and_failure_atomicity.2.2.1 _ rfl rfl,
   (C8_sanitize_and_failure_atomicity.2.2.2 ⟨sampleWallA, false, sampleWallA, false⟩
     BLOCK_WIDTHS 495 (some 826) [] "Polygon invalido" rfl).2.2⟩

/-! ## Claim C7 — classification soundness -/

/-- The wall of the C7 counterexample: `[0,418] × [0,495]` with a notch
`[100,200] × [450,495]` taken out of the top edge. -/
def wallC7 : WallPoly :=
  ⟨[⟨0, 0, 418, 450⟩, ⟨0, 450, 100, 495⟩, ⟨200, 450, 418, 495⟩], []⟩

section

/- Concrete runs of the embedded pipeline are evaluated by `decide`; the
rational operations are `[irreducible]` and must be opened up for that
evaluation within this section. -/
attribute [local semireducible] Rat.add Rat.sub Rat.mul Rat.inv

/-- C7 counterexample: the main packer's final output on `wallC7` is a
single custom piece tagged `"out_of_spec"` whose rounded width 418 does not
exceed `MAX_STD_WIDTH + CUSTOM_TOL = 1239 + 5` and whose rounded height 495
does not exceed `COURSE_HEIGHT + CUSTOM_TOL = 495 + 5` — so the claimed
implication `ctype = "out_of_spec" ⟹ w > 1244 ∨ h > 500` is false: the
main variant tags out-of-spec at the hard-coded bound `w ≥ 413 + 5`. -/
theorem C7_counterexample :
    ((Main.pack_wall wallC7 BLOCK_WIDTHS 495 (some 826) []).2.map
      (fun c => (c.ctype, pyRound c.width, pyRound c.height)))
      = [(some CType.oos, 418, 495)] ∧
    ((418 : ℤ) ≤ 1239 + SCARTO_CUSTOM_MM ∧ (495 : ℤ) ≤ 495 + SCARTO_CUSTOM_MM) := by
  constructor
  · decide
  · decide

end

/-- C7 amended: classification is sound for the bounds each variant
actually uses — the main variant tags `"out_of_spec"` exactly when the
rounded width is at least `413 + CUSTOM_TOL` (its hard-coded bound, not the
largest configured width) or the rounded height exceeds `495 + CUSTOM_TOL`;
the core variant uses the largest configured width `1239` with an inclusive
lower bound; `ctype = 1` implies near-course height and width below the
variant's bound; every piece is tagged with exactly one of the three
types. -/
theorem C7_classification_soundness :
    (∀ cs : List Custom, ∀ c ∈ Main.validate_and_tag_customs cs,
      (c.ctype = some CType.oos ↔
        413 + SCARTO_CUSTOM_MM ≤ pyRound c.width ∨
          495 + SCARTO_CUSTOM_MM < pyRound c.height) ∧
      (c.ctype = some CType.t1 →
        |pyRound c.height - 495| ≤ SCARTO_CUSTOM_MM ∧
          pyRound c.width < 413 + SCARTO_CUSTOM_MM) ∧
      (c.ctype = some CType.t1 ∨ c.ctype = some CType.t2 ∨
        c.ctype = some CType.oos)) ∧
    (∀ cs : List Custom, ∀ c ∈ Core.validate_and_tag_customs cs,
      (c.ctype = some CType.oos ↔
        1239 + SCARTO_CUSTOM_MM ≤ pyRound c.width ∨
          495 + SCARTO_CUSTOM_MM < pyRound c.height) ∧
      (c.ctype = some CType.t1 →
        |pyRound c.height - 495| ≤ SCARTO_CUSTOM_MM ∧
          pyRound c.width ≤ 1239 + SCARTO_CUSTOM_MM) ∧
      (c.ctype = some CType.t1 ∨ c.ctype = some CType.t2 ∨
        c.ctype = some CType.oos)) := by
  constructor
  · intro cs c hc
    simp only [Main.validate_and_tag_customs, List.mem_map] at hc
    obtain ⟨c0, _, rfl⟩ := hc
    by_cases hoos : 413 + SCARTO_CUSTOM_MM ≤ pyRound c0.width ∨
        495 + SCARTO_CUSTOM_MM < pyRound c0.height
    · simp [hoos]
    · by_cases ht1 : |pyRound c0.height - 495| ≤ SCARTO_CUSTOM_MM ∧
          pyRound c0.width < 413 + SCARTO_CUSTOM_MM
      · simp [hoos, ht1]
      · simp [hoos, ht1]
  · intro cs c hc
    simp only [Core.validate_and_tag_customs, List.mem_map] at hc
    obtain ⟨c0, _, rfl⟩ := hc
    have hmax : maxListZ BLOCK_WIDTHS = 1239 := by decide
    by_cases hoos : 1239 + SCARTO_CUSTOM_MM ≤ pyRound c0.width ∨
        495 + SCARTO_CUSTOM_MM < pyRound c0.height
    · simp [hmax, hoos]
    · by_cases ht1 : |pyRound c0.height - 495| ≤ SCARTO_CUSTOM_MM ∧
          pyRound c0.width ≤ 1239 + SCARTO_CUSTOM_MM
      · simp [hmax, hoos, ht1]
      · simp [hmax, hoos, ht1]

/-- Witness for C7 on a concrete list of pieces. -/
theorem C7_witness :
    ∀ c ∈ Main.validate_and_tag_customs
        [⟨418, 495, 0, 0, [⟨0, 0, 418, 495⟩], none, none, none⟩],
      (c.ctype = some CType.oos ↔
        413 + SCARTO_CUSTOM_MM ≤ pyRound c.width ∨
          495 + SCARTO_CUSTOM_MM < pyRound c.height) :=
  fun c hc => ((C7_classification_soundness.1 _ c hc).1)

/-! ## Claim C3 — standard-fit tie rule -/

/-- The core greedy loop only appends to its accumulators. -/
theorem Core.segLoop_extendsCore (comp : Region) (y top segMaxx : ℚ)
    (widths : List ℤ) :
    ∀ n cursor p c, ∃ ps cs,
      Core.segLoop comp y top segMaxx widths n cursor p c = (p ++ ps, c ++ cs) := by
  intro n
  induction n with
  | zero =>
      intro cursor p c
      exact ⟨[], [], by simp [Core.segLoop]⟩
  | succ n ih =>
      intro cursor p c
      by_cases hcur : cursor < segMaxx - COORD_EPS
      · rcases hfind : widths.find? (fitsAt comp cursor y top segMaxx) with _ | bw
        · by_cases hmr : MICRO_REST_MM < segMaxx - cursor
          · refine ⟨[],
              (if !rgIsEmpty (interBox comp ⟨cursor, y, segMaxx, top⟩) &&
                  AREA_EPS ≤ rgArea (interBox comp ⟨cursor, y, segMaxx, top⟩) then
                [Core.mk_custom (interBox comp ⟨cursor, y, segMaxx, top⟩) widths]
              else []), ?_⟩
            simp [Core.segLoop, hcur, hfind, hmr]
          · refine ⟨[], [], ?_⟩
            simp [Core.segLoop, hcur, hfind, hmr]
        · by_cases hr : (95 : ℚ)/100 ≤
              rgArea (interBox comp (candBox cursor y bw top)) / (candBox cursor y bw top).area
          · obtain ⟨ps, cs, h⟩ :=
              ih (pySnap (cursor + bw)) (p ++ [mkStd cursor y bw (BLOCK_HEIGHT : ℚ)]) c
            refine ⟨mkStd cursor y bw (BLOCK_HEIGHT : ℚ) :: ps, cs, ?_⟩
            simp only [Core.segLoop, hcur, if_true, hfind, hr]
            simpa using h
          · obtain ⟨ps, cs, h⟩ :=
              ih (pySnap (cursor + bw)) p
                (c ++ [Core.mk_custom (interBox comp (candBox cursor y bw top)) widths])
            refine ⟨ps, Core.mk_custom (interBox comp (candBox cursor y bw top)) widths :: cs, ?_⟩
            simp only [Core.segLoop, hcur, if_true, hfind, hr]
            simpa using h
      · exact ⟨[], [], by simp [Core.segLoop, hcur]⟩

/-- Results that extend given accumulators: helper shapes for the
append-only lemmas about the packing loops. -/
theorem ext_pair_self (p : List Std) (c : List Custom) :
    ∃ ps cs, ((p, c) : List Std × List Custom) = (p ++ ps, c ++ cs) :=
  ⟨[], [], by simp⟩

theorem ext_pair_c (p : List Std) (c b : List Custom) :
    ∃ ps cs, ((p, c ++ b) : List Std × List Custom) = (p ++ ps, c ++ cs) :=
  ⟨[], b, by simp⟩

theorem ext_shift_p {X : List Std × List Custom} {p : List Std} {a : List Std}
    {c : List Custom} (h : ∃ ps cs, X = ((p ++ a) ++ ps, c ++ cs)) :
    ∃ ps cs, X = (p ++ ps, c ++ cs) := by
  obtain ⟨ps, cs, h⟩ := h
  exact ⟨a ++ ps, cs, by rw [h, List.append_assoc]⟩

theorem ext_shift_c {X : List Std × List Custom} {p : List Std}
    {c b : List Custom} (h : ∃ ps cs, X = (p ++ ps, (c ++ b) ++ cs)) :
    ∃ ps cs, X = (p ++ ps, c ++ cs) := by
  obtain ⟨ps, cs, h⟩ := h
  exact ⟨ps, b ++ cs, by rw [h, List.append_assoc]⟩

theorem ext_shift_pc {X : List Std × List Custom} {p a : List Std}
    {c b : List Custom} (h : ∃ ps cs, X = ((p ++ a) ++ ps, (c ++ b) ++ cs)) :
    ∃ ps cs, X = (p ++ ps, c ++ cs) :=
  ext_shift_p (ext_shift_c (by simpa using h))

/-- The main greedy loop only appends to its accumulators. -/
theorem Main.segLoop_extendsMain (comp : Region) (y top segMaxx : ℚ)
    (widths : List ℤ) :
    ∀ n cursor p c hist, ∃ ps cs,
      Main.segLoop comp y top segMaxx widths n cursor p c hist = (p ++ ps, c ++ cs) := by
  intro n
  induction n with
  | zero =>
      intro cursor p c hist
      exact ⟨[], [], by simp [Main.segLoop]⟩
  | succ n ih =>
      intro cursor p c hist
      simp only [Main.segLoop, List.head?_cons, List.take_length]
      repeat' split
      all_goals
        first
          | exact ext_pair_self _ _
          | exact ext_pair_c _ _ _
          | exact ⟨_, _, rfl⟩
          | exact ext_shift_p (ih _ _ _ _)
          | exact ext_shift_c (ih _ _ _ _)
          | exact ext_shift_pc (ih _ _ _ _)

/-- C3 amended: at each cursor both variants act on the *first* width in
the configured order whose candidate intersection has area `>= AREA_EPS`
and which fits horizontally; for that width the core packer emits a
standard block iff the intersection fills at least 95% of the candidate
(and a custom piece for the exact intersection otherwise), while the main
packer emits a standard block iff the intersection area is within relative
tolerance `1e-9` of the candidate area. -/
theorem C3_standard_fit_rule (comp : Region) (y top segMaxx : ℚ)
    (widths : List ℤ) (n : ℕ) (cursor : ℚ) (p : List Std) (c : List Custom)
    (hist : List (ℚ × ℕ × ℕ)) (bw : ℤ)
    (hcur : cursor < segMaxx - COORD_EPS)
    (hfind : widths.find? (fitsAt comp cursor y top segMaxx) = some bw) :
    ((95 : ℚ)/100 ≤ rgArea (interBox comp (candBox cursor y bw top)) /
        (candBox cursor y bw top).area →
      ∃ ps cs, Core.segLoop comp y top segMaxx widths (n + 1) cursor p c =
        (p ++ mkStd cursor y bw (BLOCK_HEIGHT : ℚ) :: ps, c ++ cs)) ∧
    (¬ (95 : ℚ)/100 ≤ rgArea (interBox comp (candBox cursor y bw top)) /
        (candBox cursor y bw top).area →
      ∃ ps cs, Core.segLoop comp y top segMaxx widths (n + 1) cursor p c =
        (p ++ ps,
          c ++ Core.mk_custom (interBox comp (candBox cursor y bw top)) widths :: cs)) ∧
    (isClose (rgArea (interBox comp (candBox cursor y bw top)))
        (candBox cursor y bw top).area = true →
      ∃ ps cs, Main.segLoop comp y top segMaxx widths (n + 1) cursor p c hist =
        (p ++ mkStd cursor y bw (BLOCK_HEIGHT : ℚ) :: ps, c ++ cs)) ∧
    (isClose (rgArea (interBox comp (candBox cursor y bw top)))
        (candBox cursor y bw top).area = false →
      ∃ ps cs, Main.segLoop comp y top segMaxx widths (n + 1) cursor p c hist =
        (p ++ ps,
          c ++ Main.mk_custom (interBox comp (candBox cursor y bw top)) :: cs)) := by
  refine ⟨?_, ?_, ?_, ?_⟩
  · intro hr
    obtain ⟨ps, cs, h⟩ := Core.segLoop_extendsCore comp y top segMaxx widths n
      (pySnap (cursor + bw)) (p ++ [mkStd cursor y bw (BLOCK_HEIGHT : ℚ)]) c
    refine ⟨ps, cs, ?_⟩
    simp only [Core.segLoop, hcur, if_true, hfind, hr]
    simpa using h
  · intro hr
    obtain ⟨ps, cs, h⟩ := Core.segLoop_extendsCore comp y top segMaxx widths n
      (pySnap (cursor + bw)) p
      (c ++ [Core.mk_custom (interBox comp (candBox cursor y bw top)) widths])
    refine ⟨ps, cs, ?_⟩
    simp only [Core.segLoop, hcur, if_true, hfind, hr]
    simpa using h
  · intro hr
    obtain ⟨ps, cs, h⟩ := Main.segLoop_extendsMain comp y top segMaxx widths n
      (pySnap (cursor + bw)) (p ++ [mkStd cursor y bw (BLOCK_HEIGHT : ℚ)]) c
      ((cursor, p.length, c.length) :: hist)
    refine ⟨ps, cs, ?_⟩
    simp only [Main.segLoop, hcur, if_true, hfind, hr]
    simpa using h
  · intro hr
    obtain ⟨ps, cs, h⟩ := Main.segLoop_extendsMain comp y top segMaxx widths n
      (pySnap (cursor + bw)) p
      (c ++ [Main.mk_custom (interBox comp (candBox cursor y bw top))])
      ((cursor, p.length, c.length) :: hist)
    refine ⟨ps, cs, ?_⟩
    simp only [Main.segLoop, hcur, if_true, hfind, hr]
    simpa using h

/-- The component of the C3 counterexample: a full-height block-wide part
`[0,413] × [0,495]` continued by a low strip `[413,1300] × [0,50]`. -/
def compC3 : Region := [⟨0, 0, 413, 495⟩, ⟨413, 0, 1300, 50⟩]

section

attribute [local semireducible] Rat.add Rat.sub Rat.mul Rat.inv

/-- C3 counterexample: on `compC3` the candidate of width 413 at cursor 0
fits horizontally, its intersection has area `>= AREA_EPS` and fills its
rectangle completely (ratio 1 ≥ 0.95), yet the core packer emits no
standard block at all: the greedy loop acts on the first fitting width
1239, whose ratio is below 0.95, and emits a custom piece instead.  The
claim's universally quantified "for every candidate block width w that
fits" is therefore false as stated. -/
theorem C3_counterexample :
    (fitsAt compC3 0 0 495 1300 413 = true) ∧
    ((95 : ℚ)/100 ≤ rgArea (interBox compC3 (candBox 0 0 413 495)) /
      (candBox 0 0 413 495).area) ∧
    (AREA_EPS ≤ rgArea (interBox compC3 (candBox 0 0 413 495))) ∧
    ((Core._pack_segment_with_order compC3 0 495 [1239, 826, 413] 0).1 = []) := by
  refine ⟨by decide, by decide, by decide, by decide⟩

/-- Witness for C3 on a plain rectangle component where the first fitting
width has ratio 1: both variants emit the standard block. -/
theorem C3_witness :
    ∃ ps cs,
      Core.segLoop [(⟨0, 0, 413, 495⟩ : Rect)] 0 495 413 [413] (4 + 1) 0 [] [] =
        ([] ++ mkStd 0 0 413 (BLOCK_HEIGHT : ℚ) :: ps, [] ++ cs) :=
  (C3_standard_fit_rule [(⟨0, 0, 413, 495⟩ : Rect)] 0 495 413 [413] 4 0 [] [] [] 413
    (by decide) (by decide)).1 (by decide)

end

/-! ## Claim C4 — aperture filtering -/

/-- C4 amended: the core `pack_wall` keeps an aperture iff its area is at
least 1000 and its area ratio to the wall is at most 0.80, and a wall whose
apertures are all discarded packs identically to the same wall with no
apertures; the main `pack_wall` applies no filter at all (see the
counterexample). -/
theorem C4_aperture_filter :
    (∀ (wallArea : ℚ) (aps : List Rect) (ap : Rect),
      ap ∈ Core.validApertures wallArea aps ↔
        ap ∈ aps ∧ 1000 ≤ ap.area ∧ ap.area / wallArea ≤ 8/10) ∧
    (∀ (polyR : WallPoly) (bw : List ℤ) (bh : ℤ) (ro : Option ℤ) (aps : List Rect),
      (∀ ap ∈ aps, ap.area < 1000 ∨ 8/10 < ap.area / rgArea polyR.region) →
      Core.pack_wall polyR bw bh ro aps = Core.pack_wall polyR bw bh ro []) := by
  constructor
  · intro wallArea aps ap
    simp only [Core.validApertures, List.mem_filter, Bool.and_eq_true,
      Bool.not_eq_true', decide_eq_false_iff_not, not_lt]
    tauto
  · intro polyR bw bh ro aps haps
    have hv : Core.validApertures (rgArea polyR.region) aps = [] := by
      simp only [Core.validApertures, List.filter_eq_nil_iff, Bool.and_eq_true,
        Bool.not_eq_true', decide_eq_false_iff_not, not_lt, not_and, not_le]
      intro ap hap h8
      rcases haps ap hap with h | h
      · exact h
      · exact absurd h8 (not_le.mpr h)
    have hv0 : Core.validApertures (rgArea polyR.region) [] = [] := rfl
    simp only [Core.pack_wall, hv, hv0]

section

attribute [local semireducible] Rat.add Rat.sub Rat.mul Rat.inv

/-- Witness for C4: a 500-area aperture is discarded by the core packer and
its output matches the aperture-free run. -/
theorem C4_witness :
    Core.pack_wall sampleWallA BLOCK_WIDTHS 495 (some 826) [⟨100, 100, 150, 110⟩] =
      Core.pack_wall sampleWallA BLOCK_WIDTHS 495 (some 826) [] :=
  C4_aperture_filter.2 sampleWallA BLOCK_WIDTHS 495 (some 826) [⟨100, 100, 150, 110⟩]
    (by intro ap hap; simp at hap; subst hap; left; decide)

/-- C4 counterexample: the main `pack_wall` never filters apertures — a
supplied aperture of area 500 (< 1000, which the claim says is discarded)
changes the output. -/
theorem C4_counterexample :
    ((⟨100, 100, 150, 110⟩ : Rect).area < 1000) ∧
    Main.pack_wall sampleWallA BLOCK_WIDTHS 495 (some 826) [⟨100, 100, 150, 110⟩] ≠
      Main.pack_wall sampleWallA BLOCK_WIDTHS 495 (some 826) [] := by
  exact ⟨by decide, by decide⟩

end

/-! ## Claim C5 — trial minimality -/

/-- The component of the C5 counterexample: a 1652-wide course ribbon with
a 200 × 200 notch out of its top edge at `x ∈ [900, 1100]`. -/
def compC5 : Region := [⟨0, 0, 900, 495⟩, ⟨900, 0, 1100, 295⟩, ⟨1100, 0, 1652, 495⟩]

section

attribute [local semireducible] Rat.add Rat.sub Rat.mul Rat.inv

/-- C5 counterexample: the core `pack_wall` runs a single greedy descending
order per component; on `compC5` its emitted solution scores strictly worse
than the configured order `[826, 1239, 413]` — so the claim that every
configured width order is evaluated and the emitted score is minimal among
them is false for the core packer. -/
theorem C5_counterexample :
    ([826, 1239, 413] ∈ BLOCK_ORDERS) ∧
    (Core.sortDesc BLOCK_WIDTHS = [1239, 826, 413]) ∧
    (scoreLt
      (scoreSolution
        (Core._pack_segment_with_order compC5 0 495 [826, 1239, 413] 0).1
        (Core._pack_segment_with_order compC5 0 495 [826, 1239, 413] 0).2)
      (scoreSolution
        (Core._pack_segment_with_order compC5 0 495 [1239, 826, 413] 0).1
        (Core._pack_segment_with_order compC5 0 495 [1239, 826, 413] 0).2) = true) ∧
    ((Core.pack_wall ⟨compC5, []⟩ BLOCK_WIDTHS 495 (some 826) []).1 =
      (Core._pack_segment_with_order compC5 0 495 [1239, 826, 413] 0).1) := by
  refine ⟨by decide, by decide, by decide, by decide⟩

/-- C6 counterexample: on a plain `1662 × 495` rectangle ribbon the greedy
core packer reaches cursor 1652 with two prior placements; no width fits
and the remaining width 10 is below `MICRO_REST_MM`, so by the claim a
backtrack must run and (the scores tying) the original placements plus one
residual custom piece must be kept — but the core segment packer has no
backtrack and silently discards the `10 × 495` residual (area 4950 ≥
AREA_EPS). -/
theorem C6_counterexample :
    (Core._pack_segment_with_order [(⟨0, 0, 1662, 495⟩ : Rect)] 0 495
        [1239, 826, 413] 0 =
      ([mkStd 0 0 1239 495, mkStd 1239 0 413 495], [])) ∧
    ((1662 : ℚ) - 1652 < MICRO_REST_MM) ∧
    (AREA_EPS ≤ rgArea (interBox [(⟨0, 0, 1662, 495⟩ : Rect)] ⟨1652, 0, 1662, 495⟩)) := by
  refine ⟨by decide, by decide, by decide⟩

end

/-- Lexicographic "not worse" on scores: the propositional counterpart of
Python's tuple `<=`. -/
def sLe (s t : ℕ × ℚ) : Prop := s.1 < t.1 ∨ (s.1 = t.1 ∧ s.2 ≤ t.2)

theorem rectArea_nonneg (r : Rect) : 0 ≤ r.area :=
  mul_nonneg (le_max_right _ _) (le_max_right _ _)

theorem rgArea_nonneg (g : Region) : 0 ≤ rgArea g := by
  induction g with
  | nil => simp [rgArea]
  | cons r rs ih =>
      simp only [rgArea, List.map_cons, List.sum_cons]
      exact add_nonneg (rectArea_nonneg r) (by simpa [rgArea] using ih)

theorem scoreSolution_nonneg (p : List Std) (c : List Custom) :
    0 ≤ (scoreSolution p c).2 := by
  simp only [scoreSolution]
  induction c with
  | nil => simp
  | cons x xs ih =>
      simp only [List.map_cons, List.sum_cons]
      exact add_nonneg (rgArea_nonneg _) ih

theorem scoreLtBest_none_false {s : ℕ × ℚ} {n : ℕ} :
    scoreLtBest s (n, none) = false ↔ n < s.1 := by
  simp only [scoreLtBest, Bool.or_eq_false_iff, Bool.and_eq_false_iff,
    decide_eq_false_iff_not, not_lt, beq_eq_false_iff_ne, ne_eq]
  constructor
  · rintro ⟨h1, h2 | h2⟩
    · omega
    · simp at h2
  · intro h
    exact ⟨by omega, Or.inl (by omega)⟩

theorem scoreLtBest_some_false {s : ℕ × ℚ} {n : ℕ} {a : ℚ} :
    scoreLtBest s (n, some a) = false ↔ n < s.1 ∨ (s.1 = n ∧ a ≤ s.2) := by
  simp only [scoreLtBest, Bool.or_eq_false_iff, Bool.and_eq_false_iff,
    decide_eq_false_iff_not, not_lt, beq_eq_false_iff_ne, ne_eq]
  constructor
  · rintro ⟨h1, h2 | h2⟩
    · left; omega
    · rcases eq_or_lt_of_le h1 with h | h
      · exact Or.inr ⟨h.symm, h2⟩
      · exact Or.inl h
  · rintro (h | ⟨h1, h2⟩)
    · exact ⟨by omega, Or.inl (by omega)⟩
    · exact ⟨by omega, Or.inr h2⟩

theorem scoreLtBest_self (s : ℕ × ℚ) : scoreLtBest s (s.1, some s.2) = false := by
  rw [scoreLtBest_some_false]
  exact Or.inr ⟨rfl, le_refl _⟩

theorem scoreLtBest_trans {s t : ℕ × ℚ} {b : ℕ × Option ℚ}
    (hs : scoreLtBest s b = false) (ht : scoreLtBest t b = true) :
    scoreLtBest s (t.1, some t.2) = false := by
  rcases b with ⟨n, _ | a⟩
  · rw [scoreLtBest_none_false] at hs
    rw [scoreLtBest_some_false]
    simp only [scoreLtBest, Bool.or_eq_true, Bool.and_eq_true,
      decide_eq_true_eq, beq_iff_eq] at ht
    rcases ht with h | ⟨h, _⟩
    · left; omega
    · left; omega
  · rw [scoreLtBest_some_false] at hs
    rw [scoreLtBest_some_false]
    simp only [scoreLtBest, Bool.or_eq_true, Bool.and_eq_true,
      decide_eq_true_eq, beq_iff_eq] at ht
    rcases hs with h | ⟨h1, h2⟩ <;> rcases ht with h' | ⟨h1', h2'⟩
    · left; omega
    · left; omega
    · left; omega
    · right; exact ⟨by omega, by linarith⟩

/-- The invariant carried by the best-candidate fold: the running best is
either the sentinel with the empty solution, or records the score of the
solution held. -/
def bestInv (acc : (List Std × List Custom) × (ℕ × Option ℚ)) : Prop :=
  (acc.1 = ([], []) ∧ acc.2 = ((10 ^ 9 : ℕ), none)) ∨
    acc.2 = ((scoreSolution acc.1.1 acc.1.2).1, some (scoreSolution acc.1.1 acc.1.2).2)

theorem bestOver_fold_spec {α : Type} (f : α → List Std × List Custom) :
    ∀ (xs : List α) (acc), bestInv acc →
      bestInv (xs.foldl
        (fun acc o =>
          let r := f o
          let s := scoreSolution r.1 r.2
          if scoreLtBest s acc.2 then (r, (s.1, some s.2)) else acc) acc) ∧
      (∀ a ∈ xs, scoreLtBest
        (scoreSolution (f a).1 (f a).2)
        ((xs.foldl
          (fun acc o =>
            let r := f o
            let s := scoreSolution r.1 r.2
            if scoreLtBest s acc.2 then (r, (s.1, some s.2)) else acc) acc)).2 = false) ∧
      (∀ s, scoreLtBest s acc.2 = false → scoreLtBest s
        ((xs.foldl
          (fun acc o =>
            let r := f o
            let s := scoreSolution r.1 r.2
            if scoreLtBest s acc.2 then (r, (s.1, some s.2)) else acc) acc)).2 = false) := by
  intro xs
  induction xs with
  | nil =>
      intro acc hacc
      exact ⟨hacc, by simp, fun s hs => hs⟩
  | cons x xs ih =>
      intro acc hacc
      simp only [List.foldl_cons]
      rcases hupd : scoreLtBest (scoreSolution (f x).1 (f x).2) acc.2 with _ | _
      · -- not updated
        obtain ⟨hinv, hall, hpres⟩ := ih acc hacc
        simp only [hupd, if_false, Bool.false_eq_true]
        refine ⟨hinv, ?_, hpres⟩
        intro a ha
        rcases List.mem_cons.mp ha with rfl | ha
        · exact hpres _ hupd
        · exact hall a ha
      · -- updated to (f x)
        have hacc' : bestInv ((f x), ((scoreSolution (f x).1 (f x).2).1,
            some (scoreSolution (f x).1 (f x).2).2)) := Or.inr rfl
        obtain ⟨hinv, hall, hpres⟩ := ih _ hacc'
        simp only [hupd, if_true]
        refine ⟨hinv, ?_, ?_⟩
        · intro a ha
          rcases List.mem_cons.mp ha with rfl | ha
          · exact hpres _ (scoreLtBest_self _)
          · exact hall a ha
        · intro s hs
          exact hpres _ (scoreLtBest_trans hs hupd)

/-- Minimality of `bestOver`: the selected solution scores no worse than
any candidate's. -/
theorem bestOver_le {α : Type} (xs : List α) (f : α → List Std × List Custom) :
    ∀ a ∈ xs,
      sLe (scoreSolution (bestOver xs f).1 (bestOver xs f).2)
        (scoreSolution (f a).1 (f a).2) := by
  intro a ha
  obtain ⟨hinv, hall, -⟩ :=
    bestOver_fold_spec f xs ((([] : List Std), ([] : List Custom)),
      ((10 ^ 9 : ℕ), (none : Option ℚ))) (Or.inl ⟨rfl, rfl⟩)
  have hb := hall a ha
  rcases hinv with ⟨h1, h2⟩ | h2
  · rw [bestOver, h1]
    simp only [sLe, scoreSolution, List.length_nil, List.map_nil, List.sum_nil]
    rcases Nat.eq_zero_or_pos (scoreSolution (f a).1 (f a).2).1 with h | h
    · exact Or.inr ⟨h.symm, by simpa [scoreSolution] using scoreSolution_nonneg (f a).1 (f a).2⟩
    · exact Or.inl (by simpa [scoreSolution] using h)
  · rw [h2] at hb
    rw [scoreLtBest_some_false] at hb
    rw [bestOver]
    rcases hb with h | ⟨h1', h2'⟩
    · exact Or.inl h
    · exact Or.inr ⟨h1'.symm, h2'⟩

/-- C5 amended: the main `pack_wall` evaluates both configured width orders
for each offset candidate (offset 0 on even rows; the configured row offset
followed by 413 on odd rows), and the emitted per-component solution never
scores worse than any tried alternative; the core `pack_wall` runs a single
descending order with a single offset (see the counterexample). -/
theorem C5_trial_minimality :
    (∀ (comp : Region) (y top : ℚ) (w : List ℤ) (off : ℤ),
      ∀ ord ∈ BLOCK_ORDERS,
        sLe
          (scoreSolution (Main._pack_segment comp y top w off).1
            (Main._pack_segment comp y top w off).2)
          (scoreSolution (Main._pack_segment_with_order comp y top ord off).1
            (Main._pack_segment_with_order comp y top ord off).2)) ∧
    (∀ (row : ℕ) (ro : Option ℤ) (comp : Region) (y top : ℚ),
      ∀ off ∈ Main.offsetCandidates row ro,
        sLe
          (scoreSolution (Main.packComponent row ro comp y top).1
            (Main.packComponent row ro comp y top).2)
          (scoreSolution (Main._pack_segment comp y top BLOCK_WIDTHS off).1
            (Main._pack_segment comp y top BLOCK_WIDTHS off).2)) ∧
    (∀ (row : ℕ) (ro : Option ℤ), row % 2 = 0 →
      Main.offsetCandidates row ro = [0]) ∧
    (∀ (row : ℕ) (ro : ℤ), row % 2 = 1 →
      Main.offsetCandidates row (some ro) = [ro, 413]) := by
  refine ⟨?_, ?_, ?_, ?_⟩
  · intro comp y top w off ord hord
    simpa [Main._pack_segment] using
      bestOver_le BLOCK_ORDERS
        (fun o => Main._pack_segment_with_order comp y top o off) ord hord
  · intro row ro comp y top off hoff
    simpa [Main.packComponent] using
      bestOver_le (Main.offsetCandidates row ro)
        (fun o => Main._pack_segment comp y top BLOCK_WIDTHS o) off hoff
  · intro row ro h
    have hb : (row % 2 == 0) = true := by simp [h]
    simp [Main.offsetCandidates, hb]
  · intro row ro h
    have hb : (row % 2 == 0) = false := by simp [h]
    simp [Main.offsetCandidates, hb]

/-- Witness for C5 at a concrete component and order. -/
theorem C5_witness :
    sLe
      (scoreSolution
        (Main._pack_segment [(⟨0, 0, 413, 495⟩ : Rect)] 0 495 BLOCK_WIDTHS 0).1
        (Main._pack_segment [(⟨0, 0, 413, 495⟩ : Rect)] 0 495 BLOCK_WIDTHS 0).2)
      (scoreSolution
        (Main._pack_segment_with_order [(⟨0, 0, 413, 495⟩ : Rect)] 0 495
          [1239, 826, 413] 0).1
        (Main._pack_segment_with_order [(⟨0, 0, 413, 495⟩ : Rect)] 0 495
          [1239, 826, 413] 0).2) :=
  C5_trial_minimality.1 [(⟨0, 0, 413, 495⟩ : Rect)] 0 495 BLOCK_WIDTHS 0
    [1239, 826, 413] (by decide)

/-- C6 amended: in the main segment packer, whenever no width fits at the
cursor and the remaining width is strictly below `MICRO_REST_MM` (a
checkpoint then always exists — the history receives the current state at
the top of every iteration, so the restore is to the current cursor with no
placement reverted), a one-shot smallest-first fill `[413, 826, 1239]` runs
from the current cursor; it is adopted iff its score is strictly smaller
than the baseline's, and on a tie or worse the original placements are kept
plus one residual custom piece exactly when the residual area exceeds
`AREA_EPS`.  The core segment packer has no backtrack at all (see the
counterexample). -/
theorem C6_tail_backtrack (comp : Region) (y top segMaxx : ℚ)
    (widths : List ℤ) (n : ℕ) (cursor : ℚ) (p : List Std) (c : List Custom)
    (hist : List (ℚ × ℕ × ℕ))
    (hcur : cursor < segMaxx - COORD_EPS)
    (hfind : widths.find? (fitsAt comp cursor y top segMaxx) = none)
    (hrem : segMaxx - cursor < MICRO_REST_MM) :
    (let remaining := interBox comp ⟨cursor, y, segMaxx, top⟩
     let alt := Main.try_fill comp y top [413, 826, 1239] cursor
     let baselineArea : ℚ :=
       if !rgIsEmpty remaining && AREA_EPS < rgArea remaining then rgArea remaining
       else 0
     let scoreBack := scoreSolution (p ++ alt.1) (c ++ alt.2)
     let scoreBase : ℕ × ℚ :=
       (c.length + (if 0 < baselineArea then 1 else 0), baselineArea)
     (scoreLt scoreBack scoreBase = true →
       ∀ lastB, alt.1.getLast? = some lastB →
         Main.segLoop comp y top segMaxx widths (n + 1) cursor p c hist =
           Main.segLoop comp y top segMaxx widths n
             (pySnap (lastB.x + (lastB.width : ℚ))) (p ++ alt.1) (c ++ alt.2)
             ((cursor, p.length, c.length) :: hist)) ∧
     (scoreLt scoreBack scoreBase = true → alt.1 = [] → alt.2 ≠ [] →
       Main.segLoop comp y top segMaxx widths (n + 1) cursor p c hist =
         (p ++ alt.1, c ++ alt.2)) ∧
     (scoreLt scoreBack scoreBase = false →
       Main.segLoop comp y top segMaxx widths (n + 1) cursor p c hist =
         (p, c ++ (if AREA_EPS < baselineArea then [Main.mk_custom remaining] else [])))) := by
  have hne : ((cursor, p.length, c.length) :: hist) ≠ [] := by simp
  refine ⟨?_, ?_, ?_⟩
  · intro hsc lastB hlast
    simp only [Main.segLoop, hcur, if_true, hfind, List.head?_cons,
      List.take_length, hrem, hne, ne_eq, not_false_eq_true, and_self, if_true,
      hsc, hlast]
  · intro hsc h1 h2
    simp only [h1, List.append_nil] at hsc
    simp only [Main.segLoop, hcur, if_true, hfind, List.head?_cons,
      List.take_length, hrem, hne, ne_eq, not_false_eq_true, and_self, if_true,
      h1, List.append_nil, List.getLast?_nil, hsc, h2]
  · intro hsc
    simp only [Main.segLoop, hcur, if_true, hfind, List.head?_cons,
      List.take_length, hrem, hne, ne_eq, not_false_eq_true, and_self, if_true,
      hsc, Bool.false_eq_true, if_false]

section

attribute [local semireducible] Rat.add Rat.sub Rat.mul Rat.inv

/-- Witness for C6: on the `828 × 495` rectangle at cursor 826 (one prior
826-block, remaining width 2) the backtracked smallest-first fill ties the
baseline, so the original placement is kept together with the residual
custom piece. -/
theorem C6_witness :
    Main.segLoop [(⟨0, 0, 828, 495⟩ : Rect)] 0 495 828 [1239, 826, 413] (5 + 1) 826
        [mkStd 0 0 826 495] [] [(0, 0, 0)] =
      ([mkStd 0 0 826 495],
        [Main.mk_custom (interBox [(⟨0, 0, 828, 495⟩ : Rect)] ⟨826, 0, 828, 495⟩)]) := by
  have h := (C6_tail_backtrack [(⟨0, 0, 828, 495⟩ : Rect)] 0 495 828 [1239, 826, 413]
      5 826 [mkStd 0 0 826 495] [] [(0, 0, 0)] (by decide) (by decide) (by decide)).2.2
    (by decide)
  rw [h]
  decide

end

/-! ## Claim C9 — determinism and labels -/

/-- Characterization of the per-key counter fold: the labels list has the
input's length, the counters record occurrence counts, and the `i`-th label
is built from the `i`-th element's key and the number of equal keys among
the first `i + 1` elements (the emission-order ordinal). -/
theorem labelFold_spec {α : Type} (key : α → String)
    (mkLabel : String → ℕ → String) :
    ∀ l : List α,
      (Main.labelFold key mkLabel l).length = l.length ∧
      (∀ i a, l.get? i = some a →
        (Main.labelFold key mkLabel l).get? i =
          some (mkLabel (key a)
            ((l.take (i + 1)).countP (fun x => key x == key a)))) := by
  have state2 : ∀ l : List α, ∀ s,
      (((l.foldl
        (fun (acc : List String × List (String × ℕ)) a =>
          let k := key a
          let n := ((acc.2.lookup k).getD 0) + 1
          (acc.1 ++ [mkLabel k n], (k, n) :: acc.2))
        ([], [])).2.lookup s).getD 0) = l.countP (fun a => key a == s) := by
    intro l
    induction l using List.reverseRecOn with
    | nil => intro s; simp
    | append_singleton l b ih =>
        intro s
        rw [List.foldl_append]
        simp only [List.foldl_cons, List.foldl_nil, List.lookup]
        rcases hsb : (s == key b) with _ | _
        · have hsb' : (key b == s) = false := by
            simp only [beq_eq_false_iff_ne] at hsb ⊢
            exact fun h => hsb h.symm
          simp [hsb', List.countP_append, ih s, List.countP_cons,
            Bool.not_eq_true]
        · have hsb' : (key b == s) = true := by
            simp only [beq_iff_eq] at hsb ⊢
            exact hsb.symm
          have hs : s = key b := by simpa [beq_iff_eq] using hsb
          simp [hsb', List.countP_append, List.countP_cons, hs, ih (key b)]
  intro l
  induction l using List.reverseRecOn with
  | nil => exact ⟨by simp [Main.labelFold], by intro i a h; simp at h⟩
  | append_singleton l b ih =>
      obtain ⟨ihlen, ihget⟩ := ih
      have hfold : Main.labelFold key mkLabel (l ++ [b]) =
          Main.labelFold key mkLabel l ++
            [mkLabel (key b) (l.countP (fun a => key a == key b) + 1)] := by
        simp only [Main.labelFold, List.foldl_append, List.foldl_cons, List.foldl_nil]
        rw [show (((l.foldl
          (fun (acc : List String × List (String × ℕ)) a =>
            let k := key a
            let n := ((acc.2.lookup k).getD 0) + 1
            (acc.1 ++ [mkLabel k n], (k, n) :: acc.2))
          ([], [])).2.lookup (key b)).getD 0) = l.countP (fun a => key a == key b)
          from state2 l (key b)]
      constructor
      · rw [hfold]
        simp [ihlen]
      · intro i a hget
        rcases lt_trichotomy i l.length with hi | hi | hi
        · have hgl : l.get? i = some a := by
            rw [List.get?_append hi] at hget
            exact hget
          have htake : (l ++ [b]).take (i + 1) = l.take (i + 1) :=
            List.take_append_of_le_length (by omega)
          rw [hfold, List.get?_append (by omega), ihget i a hgl, htake]
        · subst hi
          have hab : a = b := by
            rw [List.get?_concat_length] at hget
            exact (Option.some_inj.mp hget).symm
          rw [hab]
          have hL : (Main.labelFold key mkLabel l).length = l.length := ihlen
          rw [hfold, show l.length = (Main.labelFold key mkLabel l).length from hL.symm,
            List.get?_concat_length]
          have htake : (l ++ [b]).take ((Main.labelFold key mkLabel l).length + 1) =
              l ++ [b] := by
            rw [hL]
            exact List.take_of_length_le (by simp)
          rw [htake]
          simp [List.countP_append, List.countP_cons]
        · exfalso
          have := List.get?_eq_none.mpr (by simp; omega : (l ++ [b]).length ≤ i)
          rw [this] at hget
          exact Option.noConfusion hget

/-- C9: `pack_wall` is a pure function of its inputs — identical wall,
apertures and configuration give identical outputs — and the labels are
assigned from emission order: the `i`-th standard label is the width's
letter followed by the count of equal letters among the first `i + 1`
placements, and the `i`-th custom label is `CU<code>(<ordinal>)` with the
ordinal counting equal codes among the first `i + 1` pieces. -/
theorem C9_determinism_and_labels :
    (∀ (p₁ p₂ : RawPoly) (bw₁ bw₂ : List ℤ) (bh₁ bh₂ : ℤ)
        (ro₁ ro₂ : Option ℤ) (aps₁ aps₂ : List Rect),
      p₁ = p₂ → bw₁ = bw₂ → bh₁ = bh₂ → ro₁ = ro₂ → aps₁ = aps₂ →
        Main.pack_wallE p₁ bw₁ bh₁ ro₁ aps₁ = Main.pack_wallE p₂ bw₂ bh₂ ro₂ aps₂) ∧
    (∀ (placed₁ placed₂ : List Std) (customs₁ customs₂ : List Custom),
      placed₁ = placed₂ → customs₁ = customs₂ →
        Main.create_block_labels placed₁ customs₁ =
          Main.create_block_labels placed₂ customs₂) ∧
    (∀ (placed : List Std) (customs : List Custom) (i : ℕ) (blk : Std),
      placed.get? i = some blk →
        (Main.create_block_labels placed customs).1.get? i =
          some (Main.letterFor blk.width ++
            toString ((placed.take (i + 1)).countP
              (fun b => Main.letterFor b.width == Main.letterFor blk.width)))) ∧
    (∀ (placed : List Std) (customs : List Custom) (i : ℕ) (cu : Custom),
      customs.get? i = some cu →
        (Main.create_block_labels placed customs).2.get? i =
          some ("CU" ++ Main.ctypeCode cu.ctype ++ "(" ++
            toString ((customs.take (i + 1)).countP
              (fun x => Main.ctypeCode x.ctype == Main.ctypeCode cu.ctype)) ++ ")")) := by
  refine ⟨?_, ?_, ?_, ?_⟩
  · intro p₁ p₂ bw₁ bw₂ bh₁ bh₂ ro₁ ro₂ aps₁ aps₂ h1 h2 h3 h4 h5
    subst h1; subst h2; subst h3; subst h4; subst h5; rfl
  · intro p₁ p₂ c₁ c₂ h1 h2
    subst h1; subst h2; rfl
  · intro placed customs i blk hget
    have h := (labelFold_spec (fun blk => Main.letterFor blk.width)
      (fun k n => k ++ toString n) placed).2 i blk hget
    simpa [Main.create_block_labels, Main.stdLabels] using h
  · intro placed customs i cu hget
    have h := (labelFold_spec (fun c => Main.ctypeCode c.ctype)
      (fun k n => "CU" ++ k ++ "(" ++ toString n ++ ")") customs).2 i cu hget
    simpa [Main.create_block_labels, Main.customLabels] using h

/-- Witness for C9 at a concrete placement list. -/
theorem C9_witness :
    (Main.create_block_labels [mkStd 0 0 826 495, mkStd 826 0 826 495] []).1.get? 1 =
      some (Main.letterFor 826 ++ toString
        (([mkStd 0 0 826 495, mkStd 826 0 826 495].take 2).countP
          (fun b => Main.letterFor b.width == Main.letterFor 826))) :=
  C9_determinism_and_labels.2.2.1 [mkStd 0 0 826 495, mkStd 826 0 826 495] [] 1
    (mkStd 826 0 826 495) rfl

/-! ## Claim C10 — bounding-box consistency of custom pieces -/

/-- The claim's property: a custom piece's numeric fields are the snapped
bounding box of its stored geometry. -/
def bboxConsistent (c : Custom) : Prop :=
  c.x = pySnap (rgBnds c.geom).minx ∧
  c.y = pySnap (rgBnds c.geom).miny ∧
  c.width = pySnap ((rgBnds c.geom).maxx - (rgBnds c.geom).minx) ∧
  c.height = pySnap ((rgBnds c.geom).maxy - (rgBnds c.geom).miny)

/-- Every element of a custom list is an output of the main `_mk_custom`. -/
def mkImage (lst : List Custom) : Prop := ∀ c ∈ lst, ∃ g, c = Main.mk_custom g

theorem mkImage_nil : mkImage [] := by intro c hc; simp at hc

theorem mkImage_single (g : Region) : mkImage [Main.mk_custom g] := by
  intro c hc
  simp at hc
  exact ⟨g, hc⟩

theorem mkImage_append {a b : List Custom} (ha : mkImage a) (hb : mkImage b) :
    mkImage (a ++ b) := by
  intro c hc
  rcases List.mem_append.mp hc with h | h
  · exact ha c h
  · exact hb c h

theorem mkImage_take {a : List Custom} (ha : mkImage a) (n : ℕ) :
    mkImage (a.take n) := fun c hc => ha c (List.mem_of_mem_take hc)

theorem Main.tryFillLoop_mkImage (comp : Region) (y top segMaxx : ℚ)
    (widths : List ℤ) :
    ∀ n cursor p cAcc, mkImage cAcc →
      mkImage (Main.tryFillLoop comp y top segMaxx widths n cursor p cAcc).2 := by
  intro n
  induction n with
  | zero => intro cursor p cAcc hacc; exact hacc
  | succ n ih =>
      intro cursor p cAcc hacc
      simp only [Main.tryFillLoop]
      repeat' split
      all_goals
        first
          | exact hacc
          | exact ih _ _ _ hacc
          | exact ih _ _ _ (mkImage_append hacc (mkImage_single _))
          | exact mkImage_append hacc (mkImage_single _)

theorem Main.try_fill_mkImage (comp : Region) (y top : ℚ) (widths : List ℤ)
    (startX : ℚ) : mkImage (Main.try_fill comp y top widths startX).2 := by
  simp only [Main.try_fill]
  exact Main.tryFillLoop_mkImage _ _ _ _ _ _ _ _ _ mkImage_nil

theorem Main.segLoop_mkImage (comp : Region) (y top segMaxx : ℚ)
    (widths : List ℤ) :
    ∀ n cursor p cAcc hist, mkImage cAcc →
      mkImage (Main.segLoop comp y top segMaxx widths n cursor p cAcc hist).2 := by
  intro n
  induction n with
  | zero => intro cursor p cAcc hist hacc; exact hacc
  | succ n ih =>
      intro cursor p cAcc hist hacc
      simp only [Main.segLoop, List.head?_cons, List.take_length]
      repeat' split
      all_goals
        first
          | exact hacc
          | exact ih _ _ _ _ hacc
          | exact ih _ _ _ _ (mkImage_append hacc (mkImage_single _))
          | exact ih _ _ _ _
              (mkImage_append hacc (Main.try_fill_mkImage comp y top _ _))
          | exact mkImage_append hacc (Main.try_fill_mkImage comp y top _ _)
          | exact mkImage_append hacc (mkImage_single _)
          | exact mkImage_append hacc mkImage_nil

theorem Main.pswo_mkImage (comp : Region) (y top : ℚ) (ord : List ℤ)
    (off : ℤ) :
    mkImage (Main._pack_segment_with_order comp y top ord off).2 := by
  simp only [Main._pack_segment_with_order]
  repeat' split
  all_goals
    first
      | exact Main.segLoop_mkImage _ _ _ _ _ _ _ _ _ _ mkImage_nil
      | exact Main.segLoop_mkImage _ _ _ _ _ _ _ _ _ _ (mkImage_single _)

theorem bestOver_cases {α : Type} (xs : List α) (f : α → List Std × List Custom) :
    bestOver xs f = ([], []) ∨ ∃ a, bestOver xs f = f a := by
  have aux : ∀ (ys : List α) (acc : (List Std × List Custom) × (ℕ × Option ℚ)),
      (acc.1 = ([], []) ∨ ∃ a, acc.1 = f a) →
      ((ys.foldl
        (fun acc o =>
          let r := f o
          let s := scoreSolution r.1 r.2
          if scoreLtBest s acc.2 then (r, (s.1, some s.2)) else acc) acc).1 = ([], []) ∨
        ∃ a, (ys.foldl
          (fun acc o =>
            let r := f o
            let s := scoreSolution r.1 r.2
            if scoreLtBest s acc.2 then (r, (s.1, some s.2)) else acc) acc).1 = f a) := by
    intro ys
    induction ys with
    | nil => intro acc hacc; exact hacc
    | cons x ys ih =>
        intro acc hacc
        simp only [List.foldl_cons]
        split
        · exact ih _ (Or.inr ⟨x, rfl⟩)
        · exact ih _ hacc
  rw [bestOver]
  exact aux xs _ (Or.inl rfl)

theorem Main.packSegment_mkImage (comp : Region) (y top : ℚ) (w : List ℤ)
    (off : ℤ) : mkImage (Main._pack_segment comp y top w off).2 := by
  rcases bestOver_cases BLOCK_ORDERS
      (fun ord => Main._pack_segment_with_order comp y top ord off) with h | ⟨a, h⟩
  · rw [Main._pack_segment, h]; exact mkImage_nil
  · rw [Main._pack_segment, h]; exact Main.pswo_mkImage comp y top a off

theorem Main.packComponent_mkImage (row : ℕ) (ro : Option ℤ) (comp : Region)
    (y top : ℚ) : mkImage (Main.packComponent row ro comp y top).2 := by
  rcases bestOver_cases (Main.offsetCandidates row ro)
      (fun o => Main._pack_segment comp y top BLOCK_WIDTHS o) with h | ⟨a, h⟩
  · rw [Main.packComponent, h]; exact mkImage_nil
  · rw [Main.packComponent, h]; exact Main.packSegment_mkImage comp y top _ a

theorem Main.courseLoop_mkImage (poly : Region) (keepout : Option Region)
    (ro : Option ℤ) (minx maxx maxy : ℚ) (bh : ℤ) :
    ∀ n y row acc, mkImage acc.2 →
      mkImage (Main.courseLoop poly keepout ro minx maxx maxy bh n y row acc).2 := by
  have step : ∀ (comps : List Region) (row : ℕ) (y top : ℚ)
      (acc : List Std × List Custom), mkImage acc.2 →
      mkImage ((comps.foldl
        (fun a comp =>
          if rgIsEmpty comp || rgArea comp < AREA_EPS then a
          else
            let r := Main.packComponent row ro comp y top
            (a.1 ++ r.1, a.2 ++ r.2)) acc)).2 := by
    intro comps
    induction comps with
    | nil => intro row y top acc hacc; exact hacc
    | cons g gs ih =>
        intro row y top acc hacc
        simp only [List.foldl_cons]
        split
        · exact ih _ _ _ _ hacc
        · exact ih _ _ _ _
            (mkImage_append hacc (Main.packComponent_mkImage row ro g y top))
  intro n
  induction n with
  | zero => intro y row acc hacc; exact hacc
  | succ n ih =>
      intro y row acc hacc
      simp only [Main.courseLoop]
      split
      · exact ih _ _ _ (step _ _ _ _ _ hacc)
      · exact hacc

theorem merge_mkImage (customs : List Custom) (rh : ℤ) :
    mkImage (merge_customs_row_aware Main.mk_custom customs rh) := by
  intro c hc
  simp only [merge_customs_row_aware] at hc
  split at hc
  · simp at hc
  · rcases List.mem_flatMap.mp hc with ⟨rid, -, hc⟩
    rcases List.mem_filterMap.mp hc with ⟨g, -, hg⟩
    split at hg
    · exact ⟨g, (Option.some_inj.mp hg).symm⟩
    · exact Option.noConfusion hg

theorem splitLoop_mkImage (poly : Region) (miny maxy maxxQ : ℚ) (maxW : ℤ) :
    ∀ n x0 acc, mkImage acc →
      mkImage (splitLoop Main.mk_custom poly miny maxy maxxQ maxW n x0 acc) := by
  intro n
  induction n with
  | zero => intro x0 acc hacc; exact hacc
  | succ n ih =>
      intro x0 acc hacc
      simp only [splitLoop]
      repeat' split
      all_goals
        first
          | exact hacc
          | exact ih _ _ hacc
          | exact ih _ _ (mkImage_append hacc (mkImage_single _))

theorem split_mkImage (customs : List Custom) (maxW maxH : ℤ)
    (hcs : mkImage customs) :
    mkImage (split_out_of_spec Main.mk_custom customs maxW maxH) := by
  intro c hc
  simp only [split_out_of_spec] at hc
  rcases List.mem_flatMap.mp hc with ⟨c0, hc0, hc⟩
  split at hc
  · simp at hc
    exact hc ▸ hcs c0 hc0
  · split at hc
    · simp at hc
    · exact splitLoop_mkImage _ _ _ _ _ _ _ _ mkImage_nil c hc

theorem mk_custom_bbox (g : Region) : bboxConsistent (Main.mk_custom g) := by
  simp [Main.mk_custom, bboxConsistent]

/-- C10: every custom piece in the main `pack_wall`'s final output carries
`x`, `y`, `width`, `height` equal to the snapped bounding box of its stored
geometry — every stage that creates or reshapes a piece rebuilds it with
`_mk_custom`, and tagging preserves the numeric fields. -/
theorem C10_bbox_consistency (polyR : WallPoly) (bw : List ℤ) (bh : ℤ)
    (ro : Option ℤ) (aps : List Rect) :
    ∀ c ∈ (Main.pack_wall polyR bw bh ro aps).2, bboxConsistent c := by
  intro c hc
  simp only [Main.pack_wall] at hc
  simp only [Main.validate_and_tag_customs, List.mem_map] at hc
  obtain ⟨c0, hc0, rfl⟩ := hc
  have himg : ∃ g, c0 = Main.mk_custom g :=
    split_mkImage _ _ _ (merge_mkImage _ _) c0 hc0
  obtain ⟨g, rfl⟩ := himg
  have hb := mk_custom_bbox g
  split
  · exact hb
  · split
    · exact hb
    · exact hb

section

attribute [local semireducible] Rat.add Rat.sub Rat.mul Rat.inv

/-- Witness for C10 at the custom piece of the `wallC7` run. -/
theorem C10_witness :
    bboxConsistent
      { width := 418, height := 495, x := 0, y := 0,
        geom := [⟨413, 0, 418, 450⟩, ⟨413, 450, 418, 495⟩, ⟨0, 0, 413, 450⟩,
          ⟨0, 450, 100, 495⟩, ⟨200, 450, 413, 495⟩],
        sourceBlockWidth := none, waste := none, ctype := some CType.oos } :=
  C10_bbox_consistency wallC7 BLOCK_WIDTHS 495 (some 826) [] _ (by decide)

end

/-! ## Claim C2 — course structure -/

theorem pyRound_intCast (m : ℤ) : pyRound (m : ℚ) = m := by
  simp [pyRound, Int.floor_intCast]

theorem pySnap_idem (q : ℚ) : pySnap (pySnap q) = pySnap q := by
  simp [pySnap, pyRound_intCast]

/-- The course start ordinates: `y₀` is the wall's `miny`, and each next
course starts at `snap(y + block_height)`. -/
def yIter (bh : ℤ) (y : ℚ) : ℕ → ℚ
  | 0 => y
  | j + 1 => yIter bh (pySnap (y + bh)) j

/-- Standard blocks emitted by the core greedy loop sit at the (snapped)
course ordinate with the standard height. -/
theorem Core.segLoop_std (comp : Region) (y top segMaxx : ℚ) (widths : List ℤ) :
    ∀ n cursor p c,
      (∀ b ∈ p, b.y = pySnap y ∧ b.height = (BLOCK_HEIGHT : ℚ)) →
      ∀ b ∈ (Core.segLoop comp y top segMaxx widths n cursor p c).1,
        b.y = pySnap y ∧ b.height = (BLOCK_HEIGHT : ℚ) := by
  intro n
  induction n with
  | zero => intro cursor p c hp; exact hp
  | succ n ih =>
      intro cursor p c hp
      simp only [Core.segLoop]
      repeat' split
      all_goals
        first
          | exact hp
          | exact ih _ _ _ hp
          | (refine ih _ _ _ ?_
             intro b hb
             rcases List.mem_append.mp hb with h | h
             · exact hp b h
             · simp at h
               subst h
               exact ⟨rfl, rfl⟩)

theorem Core.pswo_std (comp : Region) (y top : ℚ) (ord : List ℤ) (off : ℤ) :
    ∀ b ∈ (Core._pack_segment_with_order comp y top ord off).1,
      b.y = pySnap y ∧ b.height = (BLOCK_HEIGHT : ℚ) := by
  have key : ∀ (p0 : List Std),
      (∀ b ∈ p0, b.y = pySnap (pySnap y) ∧ b.height = (BLOCK_HEIGHT : ℚ)) →
      ∀ b ∈ (Core.segLoop comp (pySnap y) (pySnap top)
          (pySnap (rgBnds comp).maxx) ord
          (sweepFuel
            (if off ≠ 0 ∧ pySnap (rgBnds comp).minx + (off : ℚ) ≤
                pySnap (rgBnds comp).maxx + COORD_EPS then
              pySnap (rgBnds comp).minx else pySnap (rgBnds comp).minx)
          (pySnap (rgBnds comp).maxx)) (pySnap (rgBnds comp).minx) p0 []).1,
        b.y = pySnap y ∧ b.height = (BLOCK_HEIGHT : ℚ) := by
    intro p0 hp0
    intro b hb
    have := Core.segLoop_std comp (pySnap y) (pySnap top)
      (pySnap (rgBnds comp).maxx) ord _ _ _ _
      (by simpa [pySnap_idem] using hp0) b hb
    simpa [pySnap_idem] using this
  intro b hb
  simp only [Core._pack_segment_with_order] at hb
  have hgen : ∀ (start : ℚ × List Std × List Custom),
      (∀ b0 ∈ start.2.1, b0.y = pySnap (pySnap y) ∧
        b0.height = (BLOCK_HEIGHT : ℚ)) →
      ∀ b0 ∈ (Core.segLoop comp (pySnap y) (pySnap top)
          (pySnap (rgBnds comp).maxx) ord
          (sweepFuel start.1 (pySnap (rgBnds comp).maxx))
          start.1 start.2.1 start.2.2).1,
        b0.y = pySnap y ∧ b0.height = (BLOCK_HEIGHT : ℚ) := by
    intro start hstart b0 hb0
    have := Core.segLoop_std comp (pySnap y) (pySnap top)
      (pySnap (rgBnds comp).maxx) ord _ _ _ _ hstart b0 hb0
    simpa [pySnap_idem] using this
  revert hb
  apply hgen
  repeat' split
  all_goals intro b0 hb0
  all_goals simp at hb0
  all_goals first
    | exact absurd hb0 (by simp)
    | (subst hb0; exact ⟨rfl, rfl⟩)

/-- Adaptive placements sit at the (snapped) adaptive course ordinate with
the snapped effective height. -/
theorem Core.adaptiveLoop_std (comp : Region) (y effH maxx : ℚ)
    (widths : List ℤ) :
    ∀ n x p,
      (∀ b ∈ p, b.y = pySnap y ∧ b.height = pySnap effH) →
      ∀ b ∈ Core.adaptiveLoop comp y effH maxx widths n x p,
        b.y = pySnap y ∧ b.height = pySnap effH := by
  intro n
  induction n with
  | zero => intro x p hp; exact hp
  | succ n ih =>
      intro x p hp
      simp only [Core.adaptiveLoop]
      repeat' split
      all_goals
        first
          | exact hp
          | exact ih _ _ hp
          | (refine ih _ _ ?_
             intro b hb
             rcases List.mem_append.mp hb with h | h
             · exact hp b h
             · simp at h
               subst h
               exact ⟨rfl, rfl⟩)

theorem Core.adaptive_std (comp : Region) (y top : ℚ) (ord : List ℤ)
    (aH : ℚ) (off : ℤ) (htop : top = y + aH) :
    ∀ b ∈ (Core._pack_segment_with_order_adaptive comp y top ord aH off).1,
      b.y = pySnap y ∧ b.height = pySnap aH := by
  intro b hb
  simp only [Core._pack_segment_with_order_adaptive] at hb
  have heff : min aH (top - y) = aH := by
    rw [htop]
    simp
  rw [heff] at hb
  exact Core.adaptiveLoop_std comp y aH (rgBnds comp).maxx ord _ _ _
    (by intro b0 hb0; simp at hb0) b hb

/-- Membership through the per-component folds of the core `pack_wall`. -/
theorem foldComps_mem (F : Region → List Std × List Custom)
    (comps : List Region) :
    ∀ (acc : List Std × List Custom),
      ∀ b ∈ (comps.foldl
        (fun a comp =>
          if rgIsEmpty comp || rgArea comp < AREA_EPS then a
          else
            let r := F comp
            (a.1 ++ r.1, a.2 ++ r.2)) acc).1,
        b ∈ acc.1 ∨ ∃ comp ∈ comps, b ∈ (F comp).1 := by
  induction comps with
  | nil => intro acc b hb; exact Or.inl hb
  | cons g gs ih =>
      intro acc b hb
      simp only [List.foldl_cons] at hb
      rcases hcond : (rgIsEmpty g || decide (rgArea g < AREA_EPS)) with _ | _
      · rw [hcond] at hb
        simp only [Bool.false_eq_true, if_false] at hb
        rcases ih _ b hb with h | ⟨comp, hcomp, h⟩
        · rcases List.mem_append.mp h with h' | h'
          · exact Or.inl h'
          · exact Or.inr ⟨g, by simp, h'⟩
        · exact Or.inr ⟨comp, by simp [hcomp], h⟩
      · rw [hcond] at hb
        simp only [if_true] at hb
        rcases ih _ b hb with h | ⟨comp, hcomp, h⟩
        · exact Or.inl h
        · exact Or.inr ⟨comp, by simp [hcomp], h⟩

/-- The y-state of phase 1 after `k` rows. -/
theorem Core.phase1_y (poly : Region) (keepout : Option Region)
    (ro : Option ℤ) (bw : List ℤ) (bh : ℤ) (minx maxx : ℚ) :
    ∀ k y row acc,
      (Core.phase1 poly keepout ro bw bh minx maxx k y row acc).1 =
        yIter bh y k := by
  intro k
  induction k with
  | zero => intro y row acc; rfl
  | succ k ih =>
      intro y row acc
      simp only [Core.phase1]
      rw [ih]
      rfl

/-- Standard placements of phase 1 come from one of the `k` snapped course
ordinates, at the standard height. -/
theorem Core.phase1_std (poly : Region) (keepout : Option Region)
    (ro : Option ℤ) (bw : List ℤ) (bh : ℤ) (minx maxx : ℚ) :
    ∀ k y row acc,
      ∀ b ∈ (Core.phase1 poly keepout ro bw bh minx maxx k y row acc).2.1,
        b ∈ acc.1 ∨
          ∃ j < k, b.y = pySnap (yIter bh y j) ∧ b.height = (BLOCK_HEIGHT : ℚ) := by
  intro k
  induction k with
  | zero => intro y row acc b hb; exact Or.inl hb
  | succ k ih =>
      intro y row acc b hb
      simp only [Core.phase1] at hb
      rcases ih _ _ _ b hb with h | ⟨j, hj, hy, hh⟩
      · rcases foldComps_mem _ _ _ b h with h' | ⟨comp, -, h'⟩
        · exact Or.inl h'
        · refine Or.inr ⟨0, by omega, ?_, ?_⟩
          · exact (Core.pswo_std comp y (y + (bh : ℚ)) _ _ b h').1
          · exact (Core.pswo_std comp y (y + (bh : ℚ)) _ _ b h').2
      · exact Or.inr ⟨j + 1, by omega, by simpa [yIter] using hy, hh⟩

/-- C2. Course structure, sound for the core variant: every standard block
of `Core.pack_wall`'s output either belongs to one of the
`N = ⌊H / block_height⌋` full courses — its `y` is the snapped `k`-th
course ordinate for some `k < N` and its height is the standard course
height — or to the single adaptive course, which exists only when the
vertical residual `r` is at least 150 and whose blocks sit at the snapped
`N`-th ordinate with height `snap(min r block_height)`. -/
theorem C2_course_structure (polyR : WallPoly) (bw : List ℤ) (bh : ℤ)
    (ro : Option ℤ) (aps : List Rect) (blk : Std)
    (hblk : blk ∈ (Core.pack_wall polyR bw bh ro aps).1) :
    let b := rgBnds polyR.region
    let N : ℕ := ((b.maxy - b.miny) / (bh : ℚ)).floor.toNat
    let r : ℚ := b.maxy - b.miny - (N : ℚ) * (bh : ℚ)
    (∃ k < N, blk.y = pySnap (yIter bh b.miny k) ∧
        blk.height = (BLOCK_HEIGHT : ℚ)) ∨
      ((150 : ℚ) ≤ r ∧ blk.y = pySnap (yIter bh b.miny N) ∧
        blk.height = pySnap (min r (bh : ℚ))) := by
  intro b N r
  simp only [Core.pack_wall] at hblk
  split at hblk
  · rcases foldComps_mem _ _ _ blk hblk with h | ⟨comp, -, h⟩
    · rcases Core.phase1_std _ _ _ _ _ _ _ _ _ _ _ blk h with h0 | ⟨j, hj, hy, hh⟩
      · exact absurd h0 (by simp)
      · exact Or.inl ⟨j, hj, hy, hh⟩
    · have hstd := Core.adaptive_std comp _ _ _ _ _ rfl blk h
      refine Or.inr ⟨by assumption, ?_, hstd.2⟩
      rw [hstd.1, Core.phase1_y]
  · rcases Core.phase1_std _ _ _ _ _ _ _ _ _ _ _ blk hblk with h0 | ⟨j, hj, hy, hh⟩
    · exact absurd h0 (by simp)
    · exact Or.inl ⟨j, hj, hy, hh⟩

section
attribute [local semireducible] Rat.add Rat.sub Rat.mul Rat.inv

/-- Counterexample to C2 for the main variant: on the 413 × 595 wall the
vertical residual is 595 − 1·495 = 100 < 150, yet `main.pack_wall` places a
standard block at `y = 495`, inside the leftover band the claim says is
skipped. -/
theorem C2_counterexample :
    ((Main.pack_wall ⟨[(⟨0, 0, 413, 595⟩ : Rect)], []⟩ BLOCK_WIDTHS 495
          (some 826) []).1.map (fun blk => blk.y) = [0, 495]) ∧
      (((595 : ℚ) / 495).floor.toNat = 1) ∧
      ((595 : ℚ) - ((((595 : ℚ) / 495).floor.toNat : ℕ) : ℚ) * 495 < 150) := by
  refine ⟨by decide, by decide, by decide⟩

/-- Concrete instance of the course-structure theorem: the single block the
core packer emits on the 413 × 595 wall lies in course 0. -/
theorem C2_witness :
    let b := rgBnds ([(⟨0, 0, 413, 595⟩ : Rect)] : Region)
    let N : ℕ := ((b.maxy - b.miny) / ((495 : ℤ) : ℚ)).floor.toNat
    let r : ℚ := b.maxy - b.miny - (N : ℚ) * ((495 : ℤ) : ℚ)
    (∃ k < N, (mkStd 0 0 413 495).y = pySnap (yIter 495 b.miny k) ∧
        (mkStd 0 0 413 495).height = (BLOCK_HEIGHT : ℚ)) ∨
      ((150 : ℚ) ≤ r ∧
        (mkStd 0 0 413 495).y = pySnap (yIter 495 b.miny N) ∧
        (mkStd 0 0 413 495).height = pySnap (min r ((495 : ℤ) : ℚ))) := by
  exact C2_course_structure ⟨[⟨0, 0, 413, 595⟩], []⟩ BLOCK_WIDTHS 495 none []
    (mkStd 0 0 413 495) (by decide)

end

/-! ## Claim C1 — coverage -/

/-- Two rectangles with disjoint interiors: their intersection rectangle is
degenerate.  This is the sense in which a `Region` value represents a union
of non-overlapping rectangles. -/
def rectDisjoint (r s : Rect) : Prop := (r.inter s).isEmpty = true

instance (r s : Rect) : Decidable (rectDisjoint r s) := by
  unfold rectDisjoint
  infer_instance

/-- Total area of the standard blocks, each counting `width * height`. -/
def stdsArea (l : List Std) : ℚ := (l.map (fun b => (b.width : ℚ) * b.height)).sum

/-- Total area of the custom pieces' stored geometries. -/
def customsArea (l : List Custom) : ℚ := (l.map (fun c => rgArea c.geom)).sum

/-- The half-open point set of a rectangle in the real plane. -/
def rset (r : Rect) : Set (ℝ × ℝ) :=
  Set.Ico (r.x0 : ℝ) (r.x1 : ℝ) ×ˢ Set.Ico (r.y0 : ℝ) (r.y1 : ℝ)

theorem rset_measurable (r : Rect) : MeasurableSet (rset r) :=
  measurableSet_Ico.prod measurableSet_Ico

theorem volume_rset (r : Rect) :
    MeasureTheory.volume (rset r) =
      ENNReal.ofReal ((r.x1 : ℝ) - (r.x0 : ℝ)) *
        ENNReal.ofReal ((r.y1 : ℝ) - (r.y0 : ℝ)) := by
  rw [rset, MeasureTheory.Measure.volume_eq_prod, MeasureTheory.Measure.prod_prod,
    Real.volume_Ico, Real.volume_Ico]

theorem volume_rset_area (r : Rect) (hx : r.x0 ≤ r.x1) (hy : r.y0 ≤ r.y1) :
    MeasureTheory.volume (rset r) = ENNReal.ofReal ((r.area : ℚ) : ℝ) := by
  rw [volume_rset, ← ENNReal.ofReal_mul (by
    have : (r.x0 : ℝ) ≤ (r.x1 : ℝ) := by exact_mod_cast hx
    linarith)]
  congr 1
  have harea : r.area = (r.x1 - r.x0) * (r.y1 - r.y0) := by
    rw [Rect.area, max_eq_left (by linarith), max_eq_left (by linarith)]
  rw [harea]
  push_cast
  ring

theorem rset_subset {r B : Rect}
    (h : B.x0 ≤ r.x0 ∧ r.x1 ≤ B.x1 ∧ B.y0 ≤ r.y0 ∧ r.y1 ≤ B.y1) :
    rset r ⊆ rset B := by
  apply Set.prod_mono
  · exact Set.Ico_subset_Ico (by exact_mod_cast h.1) (by exact_mod_cast h.2.1)
  · exact Set.Ico_subset_Ico (by exact_mod_cast h.2.2.1) (by exact_mod_cast h.2.2.2)

theorem rset_disjoint {r s : Rect} (h : rectDisjoint r s) :
    Disjoint (rset r) (rset s) := by
  rw [Set.disjoint_left]
  rintro ⟨px, py⟩ hr hs
  rw [rectDisjoint, Rect.isEmpty, Rect.inter] at h
  simp only [Bool.or_eq_true, decide_eq_true_eq] at h
  simp only [rset, Set.mem_prod, Set.mem_Ico] at hr hs
  rcases h with h | h
  · have h' : ((min r.x1 s.x1 : ℚ) : ℝ) ≤ ((max r.x0 s.x0 : ℚ) : ℝ) := by
      exact_mod_cast h
    push_cast at h'
    have h1 : px < min (r.x1 : ℝ) (s.x1 : ℝ) := lt_min hr.1.2 hs.1.2
    have h2 : max (r.x0 : ℝ) (s.x0 : ℝ) ≤ px := max_le hr.1.1 hs.1.1
    exact absurd (lt_of_lt_of_le (lt_of_lt_of_le h1 h') h2) (lt_irrefl _)
  · have h' : ((min r.y1 s.y1 : ℚ) : ℝ) ≤ ((max r.y0 s.y0 : ℚ) : ℝ) := by
      exact_mod_cast h
    push_cast at h'
    have h1 : py < min (r.y1 : ℝ) (s.y1 : ℝ) := lt_min hr.2.2 hs.2.2
    have h2 : max (r.y0 : ℝ) (s.y0 : ℝ) ≤ py := max_le hr.2.1 hs.2.1
    exact absurd (lt_of_lt_of_le (lt_of_lt_of_le h1 h') h2) (lt_irrefl _)

/-- The point set of a list of rectangles. -/
def rsetUnion : List Rect → Set (ℝ × ℝ)
  | [] => ∅
  | r :: rs => rset r ∪ rsetUnion rs

theorem rsetUnion_measurable (rs : List Rect) : MeasurableSet (rsetUnion rs) := by
  induction rs with
  | nil => exact MeasurableSet.empty
  | cons r rs ih => exact (rset_measurable r).union ih

theorem rsetUnion_disjoint {a : Rect} {rs : List Rect}
    (h : ∀ s ∈ rs, rectDisjoint a s) : Disjoint (rset a) (rsetUnion rs) := by
  induction rs with
  | nil => simp [rsetUnion]
  | cons s rs ih =>
      rw [rsetUnion, Set.disjoint_union_right]
      exact ⟨rset_disjoint (h s (by simp)),
        ih (fun t ht => h t (by simp [ht]))⟩

theorem volume_rsetUnion (rs : List Rect) (h : rs.Pairwise rectDisjoint) :
    MeasureTheory.volume (rsetUnion rs) =
      ((rs.map (fun r => MeasureTheory.volume (rset r))).sum) := by
  induction rs with
  | nil => simp [rsetUnion]
  | cons r rs ih =>
      rw [List.pairwise_cons] at h
      rw [rsetUnion, MeasureTheory.measure_union (rsetUnion_disjoint h.1)
        (rsetUnion_measurable rs), ih h.2]
      simp

theorem rsetUnion_subset {rs : List Rect} {B : Rect}
    (h : ∀ r ∈ rs, B.x0 ≤ r.x0 ∧ r.x1 ≤ B.x1 ∧ B.y0 ≤ r.y0 ∧ r.y1 ≤ B.y1) :
    rsetUnion rs ⊆ rset B := by
  induction rs with
  | nil => simp [rsetUnion]
  | cons r rs ih =>
      rw [rsetUnion, Set.union_subset_iff]
      exact ⟨rset_subset (h r (by simp)), ih (fun t ht => h t (by simp [ht]))⟩

/-- Pairwise-disjoint valid rectangles inside a box carry at most the
box's area: the geometric fact behind every area bound on a `Region`. -/
theorem sum_area_le_box (B : Rect) (hB : B.x0 ≤ B.x1 ∧ B.y0 ≤ B.y1)
    (rs : List Rect)
    (hval : ∀ r ∈ rs, r.x0 ≤ r.x1 ∧ r.y0 ≤ r.y1)
    (hsub : ∀ r ∈ rs, B.x0 ≤ r.x0 ∧ r.x1 ≤ B.x1 ∧ B.y0 ≤ r.y0 ∧ r.y1 ≤ B.y1)
    (hdisj : rs.Pairwise rectDisjoint) :
    (rs.map Rect.area).sum ≤ B.area := by
  have hvol : MeasureTheory.volume (rsetUnion rs) ≤ MeasureTheory.volume (rset B) :=
    MeasureTheory.measure_mono (rsetUnion_subset hsub)
  rw [volume_rsetUnion rs hdisj, volume_rset_area B hB.1 hB.2] at hvol
  have hsum : ((rs.map (fun r => MeasureTheory.volume (rset r))).sum)
      = ENNReal.ofReal (((rs.map Rect.area).sum : ℚ) : ℝ) := by
    clear hvol hdisj
    induction rs with
    | nil => simp
    | cons r rs ih =>
        have hr := hval r (by simp)
        rw [List.map_cons, List.sum_cons, List.map_cons, List.sum_cons,
          volume_rset_area r hr.1 hr.2,
          ih (fun t ht => hval t (by simp [ht])) (fun t ht => hsub t (by simp [ht]))]
        rw [← ENNReal.ofReal_add (by exact_mod_cast rectArea_nonneg r) (by
          have : (0 : ℚ) ≤ (rs.map Rect.area).sum := by
            apply List.sum_nonneg
            intro q hq
            simp only [List.mem_map] at hq
            obtain ⟨t, -, rfl⟩ := hq
            exact rectArea_nonneg t
          exact_mod_cast this)]
        push_cast
        ring_nf
  rw [hsum] at hvol
  have hineq : (((rs.map Rect.area).sum : ℚ) : ℝ) ≤ ((B.area : ℚ) : ℝ) := by
    have hBnn : (0 : ℝ) ≤ ((B.area : ℚ) : ℝ) := by exact_mod_cast rectArea_nonneg B
    exact (ENNReal.ofReal_le_ofReal_iff hBnn).mp hvol
  exact_mod_cast hineq

theorem interBox_valid (g : Region) (B : Rect) :
    ∀ r ∈ interBox g B, r.x0 ≤ r.x1 ∧ r.y0 ≤ r.y1 := by
  intro r hr
  rw [interBox, List.mem_filter] at hr
  have h := hr.2
  rw [Rect.isEmpty] at h
  simp only [Bool.not_eq_true', Bool.or_eq_false_iff, decide_eq_false_iff_not,
    not_le] at h
  exact ⟨le_of_lt h.1, le_of_lt h.2⟩

theorem interBox_subset (g : Region) (B : Rect) :
    ∀ r ∈ interBox g B, B.x0 ≤ r.x0 ∧ r.x1 ≤ B.x1 ∧ B.y0 ≤ r.y0 ∧ r.y1 ≤ B.y1 := by
  intro r hr
  rw [interBox, List.mem_filter, List.mem_map] at hr
  obtain ⟨⟨s, -, rfl⟩, -⟩ := hr
  exact ⟨le_max_right _ _, min_le_right _ _, le_max_right _ _, min_le_right _ _⟩

theorem rectDisjoint_inter {s t : Rect} (B : Rect) (h : rectDisjoint s t) :
    rectDisjoint (s.inter B) (t.inter B) := by
  rw [rectDisjoint, Rect.isEmpty, Rect.inter] at h ⊢
  simp only [Bool.or_eq_true, decide_eq_true_eq] at h ⊢
  rcases h with h | h
  · left
    calc min (s.inter B).x1 (t.inter B).x1 ≤ min s.x1 t.x1 := by
          exact min_le_min (min_le_left _ _) (min_le_left _ _)
      _ ≤ max s.x0 t.x0 := h
      _ ≤ max (s.inter B).x0 (t.inter B).x0 := by
          exact max_le_max (le_max_left _ _) (le_max_left _ _)
  · right
    calc min (s.inter B).y1 (t.inter B).y1 ≤ min s.y1 t.y1 := by
          exact min_le_min (min_le_left _ _) (min_le_left _ _)
      _ ≤ max s.y0 t.y0 := h
      _ ≤ max (s.inter B).y0 (t.inter B).y0 := by
          exact max_le_max (le_max_left _ _) (le_max_left _ _)

theorem interBox_pairwise (g : Region) (B : Rect)
    (hg : g.Pairwise rectDisjoint) :
    (interBox g B).Pairwise rectDisjoint := by
  rw [interBox]
  apply List.Pairwise.filter
  apply List.pairwise_map.mpr
  exact hg.imp (fun h => rectDisjoint_inter B h)

/-- Every clipped region is bounded in area by the clipping box. -/
theorem rgArea_interBox_le (g : Region) (B : Rect)
    (hg : g.Pairwise rectDisjoint) (hB : B.x0 ≤ B.x1 ∧ B.y0 ≤ B.y1) :
    rgArea (interBox g B) ≤ B.area :=
  sum_area_le_box B hB (interBox g B) (interBox_valid g B) (interBox_subset g B)
    (interBox_pairwise g B hg)

theorem area_of_isEmpty {r : Rect} (h : r.isEmpty = true) : r.area = 0 := by
  rw [Rect.isEmpty] at h
  simp only [Bool.or_eq_true, decide_eq_true_eq] at h
  rw [Rect.area]
  rcases h with h | h
  · have hx : max (r.x1 - r.x0) 0 = 0 := max_eq_right (by linarith)
    rw [hx]
    ring
  · have hy : max (r.y1 - r.y0) 0 = 0 := max_eq_right (by linarith)
    rw [hy]
    ring

/-- The filter of degenerate pieces does not change the clipped area. -/
theorem rgArea_interBox (g : Region) (B : Rect) :
    rgArea (interBox g B) = (g.map (fun r => (r.inter B).area)).sum := by
  induction g with
  | nil => simp [interBox, rgArea]
  | cons r g ih =>
      rw [interBox, List.map_cons]
      rcases hre : (r.inter B).isEmpty with _ | _
      · rw [List.filter_cons_of_pos (by simp [hre])]
        rw [interBox] at ih
        simp only [rgArea, List.map_cons, List.sum_cons] at ih ⊢
        rw [ih]
      · rw [List.filter_cons_of_neg (by simp [hre])]
        rw [interBox] at ih
        simp only [rgArea, List.map_cons, List.sum_cons] at ih ⊢
        rw [ih, area_of_isEmpty hre]
        ring

theorem len_split (x0 x1 a b m : ℚ) (hab : a ≤ b) (hbm : b ≤ m) :
    max (min x1 m - max x0 a) 0
      = max (min x1 b - max x0 a) 0 + max (min x1 m - max x0 b) 0 := by
  rcases le_total x1 b with h1 | h1 <;> rcases le_total x0 b with h2 | h2 <;>
    simp only [min_def, max_def] <;> split_ifs <;> linarith

/-- Additivity of the clipped area across a vertical cut. -/
theorem rgArea_interBox_split (g : Region) (a b m y top : ℚ)
    (hab : a ≤ b) (hbm : b ≤ m) :
    rgArea (interBox g ⟨a, y, m, top⟩)
      = rgArea (interBox g ⟨a, y, b, top⟩) + rgArea (interBox g ⟨b, y, m, top⟩) := by
  rw [rgArea_interBox, rgArea_interBox, rgArea_interBox]
  induction g with
  | nil => simp
  | cons r g ih =>
      simp only [List.map_cons, List.sum_cons]
      rw [ih]
      have hr : (r.inter ⟨a, y, m, top⟩).area
          = (r.inter ⟨a, y, b, top⟩).area + (r.inter ⟨b, y, m, top⟩).area := by
        simp only [Rect.inter, Rect.area]
        rw [len_split r.x0 r.x1 a b m hab hbm]
        ring
      rw [hr]
      ring

theorem interBox_nil (g : Region) (b : Rect) (h : b.x1 ≤ b.x0) :
    interBox g b = [] := by
  rw [interBox, List.filter_eq_nil_iff]
  intro r hr
  rw [List.mem_map] at hr
  obtain ⟨s, -, rfl⟩ := hr
  have hle : (s.inter b).x1 ≤ (s.inter b).x0 := by
    simp only [Rect.inter]
    exact le_trans (le_trans (min_le_right _ _) h) (le_max_right _ _)
  simp [Rect.isEmpty, hle]

theorem int_le_of_le_eps {a b : ℤ} (h : (a : ℚ) ≤ (b : ℚ) + COORD_EPS) : a ≤ b := by
  by_contra hc
  push_neg at hc
  have h1 : b + 1 ≤ a := hc
  have h2 : ((b : ℚ)) + 1 ≤ (a : ℚ) := by exact_mod_cast h1
  rw [COORD_EPS] at h
  linarith

theorem rat_le_ceil (q : ℚ) : q ≤ (q.ceil : ℚ) := by
  rw [Rat.ceil]
  split_ifs with h
  · have h2 := Rat.num_div_den q
    rw [h, Nat.cast_one, div_one] at h2
    rw [h2]
  · have h1 : q.num / (q.den : ℤ) = ⌊q⌋ := Rat.floor_def.symm
    rw [h1]
    push_cast
    have h3 := Int.lt_floor_add_one q
    linarith

theorem sweepFuel_ge (lo hi : ℚ) : hi - lo ≤ (sweepFuel lo hi : ℚ) := by
  rw [sweepFuel]
  push_cast
  rcases le_total (hi - lo) 0 with h | h
  · have h0 : (0 : ℚ) ≤ 2 * ((hi - lo).ceil.toNat : ℚ) + 2 := by positivity
    linarith
  · have h1 : hi - lo ≤ ((hi - lo).ceil : ℚ) := rat_le_ceil _
    have h2 : ((hi - lo).ceil : ℚ) ≤ ((hi - lo).ceil.toNat : ℚ) := by
      exact_mod_cast Int.self_le_toNat _
    linarith

/-- Coverage invariant of the core greedy segment loop: starting at an
integral cursor with enough fuel, the area of the component between the
cursor and the segment end exceeds the area the loop adds to the solution
by at most `max (MICRO_REST * course_height) AREA_EPS` — the one tail the
loop may silently drop. -/
theorem Core.segLoop_coverage (comp : Region) (y top : ℚ) (widthsOrder : List ℤ)
    (mS : ℤ)
    (hg : comp.Pairwise rectDisjoint)
    (hw : ∀ w ∈ widthsOrder, 1 ≤ w)
    (htop : top = y + (BLOCK_HEIGHT : ℚ)) :
    ∀ (n : ℕ) (mc : ℤ) p c,
      (mS : ℚ) - (mc : ℚ) ≤ (n : ℚ) →
      rgArea (interBox comp ⟨(mc : ℚ), y, (mS : ℚ), top⟩) ≤
        (stdsArea (Core.segLoop comp y top (mS : ℚ) widthsOrder n (mc : ℚ) p c).1
            - stdsArea p)
          + (customsArea (Core.segLoop comp y top (mS : ℚ) widthsOrder n (mc : ℚ) p c).2
            - customsArea c)
          + max (MICRO_REST_MM * (top - y)) AREA_EPS := by
  have hyt : y ≤ top := by
    rw [htop]
    have hbh : (0 : ℚ) ≤ (BLOCK_HEIGHT : ℚ) := by norm_num [BLOCK_HEIGHT]
    linarith
  have hslack : (0 : ℚ) ≤ max (MICRO_REST_MM * (top - y)) AREA_EPS :=
    le_trans (by norm_num [AREA_EPS]) (le_max_right _ _)
  intro n
  induction n with
  | zero =>
      intro mc p c hfuel
      have hms : (mS : ℚ) ≤ (mc : ℚ) := by push_cast at hfuel; linarith
      rw [interBox_nil comp _ hms]
      simp only [Core.segLoop, rgArea, List.map_nil, List.sum_nil]
      linarith
  | succ n ih =>
      intro mc p c hfuel
      simp only [Core.segLoop]
      by_cases hguard : ((mc : ℚ) < (mS : ℚ) - COORD_EPS)
      · rw [if_pos hguard]
        rcases hfind : widthsOrder.find? (fitsAt comp ((mc : ℤ) : ℚ) y top ((mS : ℤ) : ℚ))
          with _ | bw
        · simp only [hfind]
          by_cases hmic : MICRO_REST_MM < (mS : ℚ) - (mc : ℚ)
          · rw [if_pos hmic]
            by_cases hemit :
                (!rgIsEmpty (interBox comp ⟨((mc : ℤ) : ℚ), y, ((mS : ℤ) : ℚ), top⟩) &&
                  decide (AREA_EPS ≤
                    rgArea (interBox comp ⟨((mc : ℤ) : ℚ), y, ((mS : ℤ) : ℚ), top⟩))) = true
            · rw [if_pos hemit]
              simp only [customsArea, stdsArea, List.map_append, List.sum_append,
                List.map_cons, List.sum_cons, List.map_nil, List.sum_nil, Core.mk_custom]
              linarith
            · rw [if_neg (by simpa using hemit)]
              simp only [List.append_nil]
              simp only [Bool.and_eq_true, Bool.not_eq_true', decide_eq_true_eq,
                not_and_or, Bool.not_eq_false] at hemit
              rcases hemit with hemp | harea
              · have : interBox comp ⟨((mc : ℤ) : ℚ), y, ((mS : ℤ) : ℚ), top⟩ = [] := by
                  rw [rgIsEmpty] at hemp
                  exact List.isEmpty_iff.mp hemp
                rw [this]
                simp only [rgArea, List.map_nil, List.sum_nil]
                linarith
              · push_neg at harea
                have : rgArea (interBox comp ⟨((mc : ℤ) : ℚ), y, ((mS : ℤ) : ℚ), top⟩)
                    ≤ AREA_EPS := le_of_lt harea
                have hm := le_max_right (MICRO_REST_MM * (top - y)) AREA_EPS
                linarith
          · rw [if_neg hmic]
            push_neg at hmic
            have hb1 : ((mc : ℤ) : ℚ) ≤ ((mS : ℤ) : ℚ) := by
              rw [COORD_EPS] at hguard
              linarith
            have hle := rgArea_interBox_le comp ⟨((mc : ℤ) : ℚ), y, ((mS : ℤ) : ℚ), top⟩
              hg ⟨hb1, hyt⟩
            have harea2 : (Rect.area ⟨((mc : ℤ) : ℚ), y, ((mS : ℤ) : ℚ), top⟩)
                ≤ MICRO_REST_MM * (top - y) := by
              rw [Rect.area]
              have h1 : max (((mS : ℤ) : ℚ) - ((mc : ℤ) : ℚ)) 0 = (mS : ℚ) - (mc : ℚ) :=
                max_eq_left (by linarith)
              have h2 : max (top - y) 0 = top - y := max_eq_left (by linarith)
              rw [h1, h2]
              exact mul_le_mul_of_nonneg_right hmic (by linarith)
            have hm := le_max_left (MICRO_REST_MM * (top - y)) AREA_EPS
            linarith
        · simp only [hfind]
          have hmem : bw ∈ widthsOrder := List.mem_of_find?_eq_some hfind
          have hfit := List.find?_some hfind
          simp only [fitsAt, Bool.and_eq_true, decide_eq_true_eq] at hfit
          obtain ⟨hfit1, hfit2⟩ := hfit
          have hbw1 : 1 ≤ bw := hw bw hmem
          have hbw1q : (1 : ℚ) ≤ (bw : ℚ) := by exact_mod_cast hbw1
          have hbwle : mc + bw ≤ mS := int_le_of_le_eps (by push_cast at hfit1 ⊢; linarith)
          have hbwleq : ((mc + bw : ℤ) : ℚ) ≤ (mS : ℚ) := by exact_mod_cast hbwle
          have hcast : ((mc + bw : ℤ) : ℚ) = ((mc : ℤ) : ℚ) + ((bw : ℤ) : ℚ) := by push_cast; ring
          have hsnap : pySnap (((mc : ℤ) : ℚ) + ((bw : ℤ) : ℚ)) = ((mc + bw : ℤ) : ℚ) := by
            rw [← hcast, pySnap, pyRound_intCast]
          have hfuel' : (mS : ℚ) - ((mc + bw : ℤ) : ℚ) ≤ (n : ℚ) := by
            push_cast at hfuel ⊢
            linarith
          have hsplit := rgArea_interBox_split comp ((mc : ℤ) : ℚ) ((mc + bw : ℤ) : ℚ)
            ((mS : ℤ) : ℚ) y top (by rw [hcast]; linarith) hbwleq
          have hcandeq : (⟨((mc : ℤ) : ℚ), y, ((mc + bw : ℤ) : ℚ), top⟩ : Rect)
              = candBox ((mc : ℤ) : ℚ) y bw top := by
            rw [candBox, hcast]
          have hcand_area : (candBox ((mc : ℤ) : ℚ) y bw top).area
              = (bw : ℚ) * (BLOCK_HEIGHT : ℚ) := by
            rw [candBox, Rect.area]
            have h1 : max (((mc : ℤ) : ℚ) + (bw : ℚ) - ((mc : ℤ) : ℚ)) 0 = (bw : ℚ) := by
              rw [show ((mc : ℤ) : ℚ) + (bw : ℚ) - ((mc : ℤ) : ℚ) = (bw : ℚ) by ring]
              exact max_eq_left (by linarith)
            have h2 : max (top - y) 0 = top - y := max_eq_left (by linarith)
            rw [h1, h2, htop]
            ring
          by_cases hstd : ((95 : ℚ)/100 ≤
              rgArea (interBox comp (candBox ((mc : ℤ) : ℚ) y bw top)) /
                (candBox ((mc : ℤ) : ℚ) y bw top).area)
          · rw [if_pos hstd, hsnap]
            have hihx := ih (mc + bw) (p ++ [mkStd ((mc : ℤ) : ℚ) y bw (BLOCK_HEIGHT : ℚ)])
              c hfuel'
            have hstdle : rgArea (interBox comp (candBox ((mc : ℤ) : ℚ) y bw top))
                ≤ (bw : ℚ) * (BLOCK_HEIGHT : ℚ) := by
              rw [← hcand_area]
              apply rgArea_interBox_le comp _ hg
              constructor
              · rw [candBox]
                simp only
                linarith
              · exact hyt
            have hps : stdsArea (p ++ [mkStd ((mc : ℤ) : ℚ) y bw (BLOCK_HEIGHT : ℚ)])
                = stdsArea p + (bw : ℚ) * (BLOCK_HEIGHT : ℚ) := by
              simp [stdsArea, mkStd]
            rw [hcandeq] at hsplit
            rw [hps] at hihx
            linarith
          · rw [if_neg hstd, hsnap]
            have hihx := ih (mc + bw) p
              (c ++ [Core.mk_custom (interBox comp (candBox ((mc : ℤ) : ℚ) y bw top))
                widthsOrder]) hfuel'
            have hcs : customsArea (c ++
                [Core.mk_custom (interBox comp (candBox ((mc : ℤ) : ℚ) y bw top))
                  widthsOrder])
                = customsArea c
                  + rgArea (interBox comp (candBox ((mc : ℤ) : ℚ) y bw top)) := by
              simp [customsArea, Core.mk_custom]
            rw [hcandeq] at hsplit
            rw [hcs] at hihx
            linarith
      · rw [if_neg hguard]
        push_neg at hguard
        have hms : mS ≤ mc := int_le_of_le_eps (by linarith)
        have hmsq : ((mS : ℤ) : ℚ) ≤ ((mc : ℤ) : ℚ) := by exact_mod_cast hms
        rw [interBox_nil comp _ hmsq]
        simp only [rgArea, List.map_nil, List.sum_nil]
        linarith

/-- Coverage of a core segment run that starts after an offset slot
`[minx, minx + off]` whose area is already accounted for by the starting
placements and customs. -/
theorem Core.segCoverageOffset (comp : Region) (y top : ℚ) (wo : List ℤ)
    (hg : comp.Pairwise rectDisjoint) (hw : ∀ w ∈ wo, 1 ≤ w)
    (htop : top = y + (BLOCK_HEIGHT : ℚ))
    (mI mS off : ℤ) (hoff : 0 ≤ off) (hle : mI + off ≤ mS)
    (p : List Std) (c : List Custom)
    (hpc : rgArea (interBox comp ⟨(mI : ℚ), y, ((mI + off : ℤ) : ℚ), top⟩)
        ≤ stdsArea p + customsArea c) :
    rgArea (interBox comp ⟨(mI : ℚ), y, (mS : ℚ), top⟩) ≤
      stdsArea (Core.segLoop comp y top (mS : ℚ) wo
          (sweepFuel ((mI + off : ℤ) : ℚ) (mS : ℚ)) ((mI + off : ℤ) : ℚ) p c).1
        + customsArea (Core.segLoop comp y top (mS : ℚ) wo
            (sweepFuel ((mI + off : ℤ) : ℚ) (mS : ℚ)) ((mI + off : ℤ) : ℚ) p c).2
        + max (MICRO_REST_MM * (top - y)) AREA_EPS := by
  have key := Core.segLoop_coverage comp y top wo mS hg hw htop
    (sweepFuel ((mI + off : ℤ) : ℚ) (mS : ℚ)) (mI + off) p c (sweepFuel_ge _ _)
  have hsplit := rgArea_interBox_split comp (mI : ℚ) ((mI + off : ℤ) : ℚ) (mS : ℚ) y top
    (by
      push_cast
      have h0 : (0 : ℚ) ≤ (off : ℚ) := by exact_mod_cast hoff
      linarith)
    (by exact_mod_cast hle)
  linarith

/-- C1. Coverage, amended.  First conjunct, the core variant at any
starting offset: on a component made of non-overlapping rectangles, the
area the core segment packer leaves uncovered — component area between the
snapped segment bounds minus the areas of the emitted standard blocks and
custom geometries — is at most `max (MICRO_REST * course_height) AREA_EPS`:
besides sub-`AREA_EPS` residuals, the core loop silently drops tails
narrower than `MICRO_REST`, so coverage does not hold to `AREA_EPS`
precision per piece.  Second conjunct, the main variant: at a segment end
that is not a backtrack step (no width fits and the remaining width is at
least `MICRO_REST`), any residual with area above `AREA_EPS` is emitted as
a custom piece. -/
theorem C1_segment_coverage (comp : Region) (y top : ℚ) (widthsOrder : List ℤ)
    (offset : ℤ)
    (hg : comp.Pairwise rectDisjoint)
    (hw : ∀ w ∈ widthsOrder, 1 ≤ w)
    (htop : pySnap top = pySnap y + (BLOCK_HEIGHT : ℚ)) :
    (rgArea (interBox comp ⟨pySnap (rgBnds comp).minx, pySnap y,
        pySnap (rgBnds comp).maxx, pySnap top⟩) ≤
      stdsArea (Core._pack_segment_with_order comp y top widthsOrder offset).1
        + customsArea (Core._pack_segment_with_order comp y top widthsOrder offset).2
        + max (MICRO_REST_MM * (pySnap top - pySnap y)) AREA_EPS) ∧
    (∀ (y2 top2 segMaxx cursor : ℚ) (n : ℕ) (p : List Std) (c : List Custom)
        (hist : List (ℚ × ℕ × ℕ)),
      cursor < segMaxx - COORD_EPS →
      widthsOrder.find? (fitsAt comp cursor y2 top2 segMaxx) = none →
      MICRO_REST_MM ≤ segMaxx - cursor →
      AREA_EPS < rgArea (interBox comp ⟨cursor, y2, segMaxx, top2⟩) →
      (Main.segLoop comp y2 top2 segMaxx widthsOrder (n + 1) cursor p c hist).2
        = c ++ [Main.mk_custom (interBox comp ⟨cursor, y2, segMaxx, top2⟩)]) := by
  constructor
  · have hzero : rgArea (interBox comp ⟨pySnap (rgBnds comp).minx, pySnap y,
        pySnap (rgBnds comp).maxx, pySnap top⟩) ≤
        stdsArea (Core.segLoop comp (pySnap y) (pySnap top) (pySnap (rgBnds comp).maxx)
            widthsOrder (sweepFuel (pySnap (rgBnds comp).minx) (pySnap (rgBnds comp).maxx))
            (pySnap (rgBnds comp).minx) [] []).1
          + customsArea (Core.segLoop comp (pySnap y) (pySnap top) (pySnap (rgBnds comp).maxx)
              widthsOrder (sweepFuel (pySnap (rgBnds comp).minx) (pySnap (rgBnds comp).maxx))
              (pySnap (rgBnds comp).minx) [] []).2
          + max (MICRO_REST_MM * (pySnap top - pySnap y)) AREA_EPS := by
      have hfuel : ((pyRound (rgBnds comp).maxx : ℤ) : ℚ)
          - ((pyRound (rgBnds comp).minx : ℤ) : ℚ)
          ≤ ((sweepFuel (pySnap (rgBnds comp).minx) (pySnap (rgBnds comp).maxx) : ℕ) : ℚ) := by
        simpa [pySnap] using
          sweepFuel_ge (pySnap (rgBnds comp).minx) (pySnap (rgBnds comp).maxx)
      have key := Core.segLoop_coverage comp (pySnap y) (pySnap top) widthsOrder
        (pyRound (rgBnds comp).maxx) hg hw htop
        (sweepFuel (pySnap (rgBnds comp).minx) (pySnap (rgBnds comp).maxx))
        (pyRound (rgBnds comp).minx) [] [] hfuel
      simp only [stdsArea, customsArea, List.map_nil, List.sum_nil, sub_zero] at key
      simp only [pySnap, stdsArea, customsArea] at key ⊢
      exact key
    simp only [Core._pack_segment_with_order]
    by_cases hcond : (offset ≠ 0 ∧ pySnap (rgBnds comp).minx + (offset : ℚ)
        ≤ pySnap (rgBnds comp).maxx + COORD_EPS)
    · rw [if_pos hcond]
      by_cases hok : (!rgIsEmpty (interBox comp (candBox (pySnap (rgBnds comp).minx)
            (pySnap y) offset (pySnap top))) &&
          decide (AREA_EPS ≤ rgArea (interBox comp (candBox (pySnap (rgBnds comp).minx)
            (pySnap y) offset (pySnap top))))) = true
      · have hoffpos : 0 < offset := by
          rcases lt_trichotomy offset 0 with hlt | heq | hgt
          · exfalso
            have hoffq : (offset : ℚ) ≤ 0 := by exact_mod_cast le_of_lt hlt
            have hnil := interBox_nil comp
              (candBox (pySnap (rgBnds comp).minx) (pySnap y) offset (pySnap top))
              (by dsimp only [candBox]; linarith)
            rw [hnil] at hok
            simp [rgIsEmpty] at hok
          · exact absurd heq hcond.1
          · exact hgt
        have hoffq : (0 : ℚ) ≤ (offset : ℚ) := by exact_mod_cast le_of_lt hoffpos
        have hle : pyRound (rgBnds comp).minx + offset ≤ pyRound (rgBnds comp).maxx := by
          apply int_le_of_le_eps
          have h2 := hcond.2
          simp only [pySnap] at h2
          push_cast
          linarith
        have hsnap3 : pyRound ((pyRound (rgBnds comp).minx : ℚ) + (offset : ℚ))
            = pyRound (rgBnds comp).minx + offset := by
          rw [show ((pyRound (rgBnds comp).minx : ℚ) + (offset : ℚ))
              = ((pyRound (rgBnds comp).minx + offset : ℤ) : ℚ) by push_cast; ring,
            pyRound_intCast]
        have hbh0 : (0 : ℚ) ≤ (BLOCK_HEIGHT : ℚ) := by norm_num [BLOCK_HEIGHT]
        have hb1 : ((pyRound (rgBnds comp).minx : ℤ) : ℚ)
            ≤ ((pyRound (rgBnds comp).minx + offset : ℤ) : ℚ) := by
          push_cast
          linarith
        by_cases hratio : ((95 : ℚ)/100 ≤
            rgArea (interBox comp (candBox (pySnap (rgBnds comp).minx) (pySnap y) offset
              (pySnap top))) /
            (candBox (pySnap (rgBnds comp).minx) (pySnap y) offset (pySnap top)).area)
        · rw [if_pos hok, if_pos hratio]
          dsimp only
          simp only [pySnap] at htop ⊢
          rw [hsnap3]
          have hyt2 : ((pyRound y : ℤ) : ℚ) ≤ ((pyRound top : ℤ) : ℚ) := by
            rw [htop]
            linarith
          have hareaB : Rect.area ⟨((pyRound (rgBnds comp).minx : ℤ) : ℚ),
              ((pyRound y : ℤ) : ℚ), ((pyRound (rgBnds comp).minx + offset : ℤ) : ℚ),
              ((pyRound top : ℤ) : ℚ)⟩ = (offset : ℚ) * (BLOCK_HEIGHT : ℚ) := by
            simp only [Rect.area]
            rw [show ((pyRound (rgBnds comp).minx + offset : ℤ) : ℚ)
                - ((pyRound (rgBnds comp).minx : ℤ) : ℚ) = (offset : ℚ) by push_cast; ring]
            rw [max_eq_left hoffq, htop]
            rw [show ((pyRound y : ℤ) : ℚ) + (BLOCK_HEIGHT : ℚ) - ((pyRound y : ℤ) : ℚ)
                = (BLOCK_HEIGHT : ℚ) by ring]
            rw [max_eq_left hbh0]
          have hpc : rgArea (interBox comp ⟨((pyRound (rgBnds comp).minx : ℤ) : ℚ),
              ((pyRound y : ℤ) : ℚ), ((pyRound (rgBnds comp).minx + offset : ℤ) : ℚ),
              ((pyRound top : ℤ) : ℚ)⟩)
              ≤ stdsArea [mkStd ((pyRound (rgBnds comp).minx : ℤ) : ℚ)
                  ((pyRound y : ℤ) : ℚ) offset (BLOCK_HEIGHT : ℚ)] + customsArea [] := by
            have hba := rgArea_interBox_le comp ⟨((pyRound (rgBnds comp).minx : ℤ) : ℚ),
              ((pyRound y : ℤ) : ℚ), ((pyRound (rgBnds comp).minx + offset : ℤ) : ℚ),
              ((pyRound top : ℤ) : ℚ)⟩ hg ⟨hb1, hyt2⟩
            rw [hareaB] at hba
            have hstds : stdsArea [mkStd ((pyRound (rgBnds comp).minx : ℤ) : ℚ)
                ((pyRound y : ℤ) : ℚ) offset (BLOCK_HEIGHT : ℚ)]
                = (offset : ℚ) * (BLOCK_HEIGHT : ℚ) := by
              simp [stdsArea, mkStd]
            rw [hstds, customsArea]
            simpa using hba
          exact Core.segCoverageOffset comp ((pyRound y : ℤ) : ℚ) ((pyRound top : ℤ) : ℚ)
            widthsOrder hg hw htop (pyRound (rgBnds comp).minx) (pyRound (rgBnds comp).maxx)
            offset (le_of_lt hoffpos) hle
            [mkStd ((pyRound (rgBnds comp).minx : ℤ) : ℚ) ((pyRound y : ℤ) : ℚ) offset
              (BLOCK_HEIGHT : ℚ)] [] hpc
        · rw [if_pos hok, if_neg hratio]
          dsimp only
          simp only [pySnap] at htop ⊢
          rw [hsnap3]
          have hboxeq : (⟨((pyRound (rgBnds comp).minx : ℤ) : ℚ), ((pyRound y : ℤ) : ℚ),
              ((pyRound (rgBnds comp).minx + offset : ℤ) : ℚ), ((pyRound top : ℤ) : ℚ)⟩ : Rect)
              = candBox ((pyRound (rgBnds comp).minx : ℤ) : ℚ) ((pyRound y : ℤ) : ℚ) offset
                ((pyRound top : ℤ) : ℚ) := by
            rw [candBox]
            congr 1
            push_cast
            ring
          have hpc : rgArea (interBox comp ⟨((pyRound (rgBnds comp).minx : ℤ) : ℚ),
              ((pyRound y : ℤ) : ℚ), ((pyRound (rgBnds comp).minx + offset : ℤ) : ℚ),
              ((pyRound top : ℤ) : ℚ)⟩)
              ≤ stdsArea []
                + customsArea [Core.mk_custom (interBox comp
                    (candBox ((pyRound (rgBnds comp).minx : ℤ) : ℚ) ((pyRound y : ℤ) : ℚ)
                      offset ((pyRound top : ℤ) : ℚ))) widthsOrder] := by
            rw [hboxeq]
            have hcs : customsArea [Core.mk_custom (interBox comp
                (candBox ((pyRound (rgBnds comp).minx : ℤ) : ℚ) ((pyRound y : ℤ) : ℚ)
                  offset ((pyRound top : ℤ) : ℚ))) widthsOrder]
                = rgArea (interBox comp
                    (candBox ((pyRound (rgBnds comp).minx : ℤ) : ℚ) ((pyRound y : ℤ) : ℚ)
                      offset ((pyRound top : ℤ) : ℚ))) := by
              simp [customsArea, Core.mk_custom]
            rw [hcs, stdsArea]
            simp
          exact Core.segCoverageOffset comp ((pyRound y : ℤ) : ℚ) ((pyRound top : ℤ) : ℚ)
            widthsOrder hg hw htop (pyRound (rgBnds comp).minx) (pyRound (rgBnds comp).maxx)
            offset (le_of_lt hoffpos) hle []
            [Core.mk_custom (interBox comp
              (candBox ((pyRound (rgBnds comp).minx : ℤ) : ℚ) ((pyRound y : ℤ) : ℚ)
                offset ((pyRound top : ℤ) : ℚ))) widthsOrder] hpc
      · rw [if_neg hok]
        dsimp only
        exact hzero
    · rw [if_neg hcond]
      dsimp only
      exact hzero
  · intro y2 top2 segMaxx cursor n p c hist hcur hfind hmic harea
    have hne : interBox comp ⟨cursor, y2, segMaxx, top2⟩ ≠ [] := by
      intro h0
      rw [h0] at harea
      norm_num [rgArea, AREA_EPS] at harea
    have hempty : rgIsEmpty (interBox comp ⟨cursor, y2, segMaxx, top2⟩) = false := by
      rw [rgIsEmpty]
      rcases hh : (interBox comp ⟨cursor, y2, segMaxx, top2⟩).isEmpty with _ | _
      · rfl
      · exact absurd (List.isEmpty_iff.mp hh) hne
    simp only [Main.segLoop]
    rw [if_pos hcur]
    simp only [hfind]
    rw [if_neg (fun hcon => absurd hcon.1 (not_lt.mpr hmic))]
    rw [if_pos (by rw [hempty]; simp [harea])]

section
attribute [local semireducible] Rat.add Rat.sub Rat.mul Rat.inv

/-- Counterexample to C1 for the core variant: on the 1662 × 495 wall the
core packer places the 1239 and 413 standard blocks, reaches a 10-wide tail
(narrower than `MICRO_REST = 15`) and silently discards it: the uncovered
area is 10 · 495 = 4950, far above `AREA_EPS` times the two emitted
pieces. -/
theorem C1_counterexample :
    (Core.pack_wall ⟨[(⟨0, 0, 1662, 495⟩ : Rect)], []⟩ BLOCK_WIDTHS 495 none [] =
      ([mkStd 0 0 1239 495, mkStd 1239 0 413 495], [])) ∧
      rgArea [(⟨0, 0, 1662, 495⟩ : Rect)]
          - (stdsArea [mkStd 0 0 1239 495, mkStd 1239 0 413 495] + customsArea [])
        = 4950 ∧
      AREA_EPS * 2 < 4950 := by
  refine ⟨by decide, by decide, by decide⟩

/-- Concrete instance of C1: the coverage bound on the 1662 × 495
component with starting offset 826 (822690 ≤ 817740 + 0 + 7425), and the
main tail emission at cursor 1400 of the same component, where no width
fits, the remaining width is 262 ≥ MICRO_REST and the residual area is
262 · 495 > AREA_EPS. -/
theorem C1_witness :
    (rgArea (interBox [(⟨0, 0, 1662, 495⟩ : Rect)]
        ⟨pySnap (rgBnds [(⟨0, 0, 1662, 495⟩ : Rect)]).minx, pySnap 0,
          pySnap (rgBnds [(⟨0, 0, 1662, 495⟩ : Rect)]).maxx, pySnap 495⟩) ≤
      stdsArea (Core._pack_segment_with_order [(⟨0, 0, 1662, 495⟩ : Rect)] 0 495
          [1239, 826, 413] 826).1
        + customsArea (Core._pack_segment_with_order [(⟨0, 0, 1662, 495⟩ : Rect)] 0 495
          [1239, 826, 413] 826).2
        + max (MICRO_REST_MM * (pySnap 495 - pySnap 0)) AREA_EPS) ∧
    ((Main.segLoop [(⟨0, 0, 1662, 495⟩ : Rect)] 0 495 1662 [1239, 826, 413]
        (0 + 1) 1400 [] [] []).2
      = [] ++ [Main.mk_custom (interBox [(⟨0, 0, 1662, 495⟩ : Rect)]
          ⟨1400, 0, 1662, 495⟩)]) := by
  have h := C1_segment_coverage [(⟨0, 0, 1662, 495⟩ : Rect)] 0 495 [1239, 826, 413] 826
    (by simp) (by decide) (by decide)
  exact ⟨h.1, h.2 0 495 1662 1400 0 [] [] [] (by decide) (by decide) (by decide) (by decide)⟩

end

end WallBuild
